import Mathlib

/-!
Shallow embedding of the StartupETLPipeline repository (Python/pandas) and
verification of its specification claims.

Source files embedded:
  src/src/etl/transform.py   (DataTransformer: merges, job enrichment, FK repair)
  src/src/etl/extract.py     (DataExtractor: incremental filter)
  src/src/etl/load.py        (DataLoader: batched upsert, outer transaction)
  src/src/etl/founder_features.py
  src/src/api/client.py      (auth probe)
  src/run_pipeline.py        (orchestrator degradation path)
  src/src/utils/field_mappings.py

Modelling conventions:
  pandas DataFrames are a column-name list plus positional rows of optional
  cell values (None/NaN both become `none`); Python dicts are association
  lists with insertion order and last-write-wins update; datetimes are `Int`;
  exceptions are `Except String`; the sqlite store is an association list of
  named tables, with each commit applied immediately (matching the per-batch
  commits the code performs on fresh connections).
-/

set_option maxHeartbeats 1000000

namespace ETL

/-- Cell values that can appear in a table or an enrichment payload:
strings, integers, datetimes (coded as Int), booleans and raw lists
(payload lists are lists of strings, as the API list fields are). -/
inductive Val where
  | str : String → Val
  | int : Int → Val
  | date : Int → Val
  | vbool : Bool → Val
  | vlist : List String → Val
deriving DecidableEq, Repr

/-- A Python dict with optional values (dict entries may hold None). -/
abbrev Dict := List (String × Option Val)

/-- An enrichment record as returned by the API: a JSON object. -/
abbrev Rec := Dict

/-- Python dict lookup `d.get(k)`: None both when absent and when stored
as None. -/
def dictGet (d : Dict) (k : String) : Option Val :=
  match d.lookup k with
  | some v => v
  | none => none

/-- Python dict assignment `d[k] = v`: overwrite in place when the key is
present (its position is kept), append otherwise. -/
def dictUpd (d : Dict) (k : String) (v : Option Val) : Dict :=
  if d.any (fun p => p.1 = k) then
    d.map (fun p => if p.1 = k then (k, v) else p)
  else d ++ [(k, v)]

/-- Ordered union of the key lists of several dicts, in first-appearance
order (the column order `pd.DataFrame(list_of_dicts)` produces). -/
def orderedUnion (ls : List (List String)) : List String :=
  ls.foldl (fun acc ks => acc ++ ks.filter (fun k => !acc.contains k)) []

/-- A pandas DataFrame: named columns and positional rows; a missing or
NaN cell is `none`. -/
structure DF where
  cols : List String
  rows : List (List (Option Val))
deriving DecidableEq, Repr

/-- Reading the cell of a row at a named column (first occurrence), `none`
when the column is absent or the row too short. -/
def cellC : List String → List (Option Val) → String → Option Val
  | [], _, _ => none
  | _ :: _, [], _ => none
  | c0 :: cs, v :: vs, c => if c0 = c then v else cellC cs vs c

/-- Writing the cell of a row at a named column (first occurrence). -/
def setCellC : List String → List (Option Val) → String → Option Val → List (Option Val)
  | c0 :: cs, v :: vs, c, w => if c0 = c then w :: vs else v :: setCellC cs vs c w
  | _, r, _, _ => r

/-! Field mappings (src/src/utils/field_mappings.py). -/

/-- Organization field mappings between API (key) and CSV (value) data. -/
def ORGANIZATION_FIELD_MAPPINGS : List (String × String) :=
  [("state", "region"), ("country", "country_code"),
   ("street_address", "address"), ("website_url", "homepage_url")]

/-- People field mappings between API and CSV data (the source maps
state to the misspelled column name reigon). -/
def PEOPLE_FIELD_MAPPINGS : List (String × String) :=
  [("state", "reigon"), ("country", "country_code")]

/-! Value coercions used by the transform stage. -/

/-- A json.dumps rendering of a value (string escaping elided: claims never
depend on the escaped form). -/
def jsonVal : Val → String
  | .str s => "\"" ++ s ++ "\""
  | .int n => toString n
  | .date n => toString n
  | .vbool b => if b then "true" else "false"
  | .vlist l => "[" ++ String.intercalate ", " (l.map (fun s => "\"" ++ s ++ "\"")) ++ "]"

/-- A json.dumps rendering of an optional value: Python None renders as
null. -/
def jsonOpt : Option Val → String
  | none => "null"
  | some v => jsonVal v

/-- ISO date string parsing: YYYY-MM-DD becomes an Int code, everything
else fails. -/
def parseDateStr (s : String) : Option Val :=
  match s.splitOn "-" with
  | [y, m, d] =>
    match y.toNat?, m.toNat?, d.toNat? with
    | some yn, some mn, some dn => some (.date (yn * 10000 + mn * 100 + dn))
    | _, _, _ => none
  | _ => none

/-- pd.to_datetime with errors equal to coerce on one cell: dates pass
through, strings parse or become NaT, ints are epoch-style stamps,
everything else becomes NaT. -/
def coerceDate : Option Val → Option Val
  | some (.date d) => some (.date d)
  | some (.str s) => parseDateStr s
  | some (.int n) => some (.date n)
  | _ => none

/-! Generic entity merge (transform.py, methods of DataTransformer:
the org and people variants share this structure and differ only in the
key column, the fixed base-row builder and the mapping table). -/

/-- An enrichment mapping as the extract stage hands it to the transform
stage: a dict from lookup key to enrichment record. -/
abbrev ApiData := List (String × Rec)

/-- The override loop at the end of the api-row construction: every payload
field is written into the row under its mapped CSV name (unmapped fields
keep their own name), overwriting the fixed base assignment. -/
def applyOverrides (mapping : List (String × String)) (base : Dict) (rec : Rec) : Dict :=
  rec.foldl (fun acc p => dictUpd acc ((mapping.lookup p.1).getD p.1) p.2) base

/-- The api_rows list: one dict per truthy enrichment record, base fields
then the override loop. -/
def apiRowsOf (mkBase : String → Rec → Dict) (mapping : List (String × String))
    (api : ApiData) : List Dict :=
  api.foldl (fun acc p =>
    if p.2.isEmpty then acc
    else acc ++ [applyOverrides mapping (mkBase p.1 p.2) p.2]) []

/-- pd.DataFrame(api_rows) followed by the date-column coercion: columns
are the ordered union of the dict keys; missing keys become NaN. -/
def apiDFOf (mkBase : String → Rec → Dict) (mapping : List (String × String))
    (dateCols : List String) (api : ApiData) : DF :=
  let dicts := apiRowsOf mkBase mapping api
  let cols := orderedUnion (dicts.map (fun d => d.map (fun p => p.1)))
  { cols := cols
    rows := dicts.map (fun d =>
      cols.map (fun c => if c ∈ dateCols then coerceDate (dictGet d c) else dictGet d c)) }

/-- One output row of the left merge for a file row that matched an api
row: shared columns keep the file value and fill NaN from the api value
(the join key column is excluded from the fillna loop), api-only columns
take the api value. -/
def mergedRowM (dfCols : List String) (r : List (Option Val)) (adfCols : List String)
    (a : List (Option Val)) (keyCol : String) (rcols : List String) : List (Option Val) :=
  rcols.map (fun c =>
    if c ∈ dfCols then
      if c ∈ adfCols ∧ c ≠ keyCol then (cellC dfCols r c).orElse (fun _ => cellC adfCols a c)
      else cellC dfCols r c
    else cellC adfCols a c)

/-- One output row of the left merge for a file row with no api match:
file values, api-only columns NaN. -/
def mergedRowU (dfCols : List String) (r : List (Option Val))
    (rcols : List String) : List (Option Val) :=
  rcols.map (fun c => if c ∈ dfCols then cellC dfCols r c else none)

/-- The row mask of the source-column update: the row's key value is one
of the enrichment dict keys. -/
def maskOf (rcols : List String) (keyCol : String) (keys : List String)
    (row : List (Option Val)) : Bool :=
  match cellC rcols row keyCol with
  | some (.str s) => keys.contains s
  | _ => false

/-- One row of the source-column update: masked rows get source set to
csv+api. -/
def applyMask (rcols : List String) (keyCol : String) (keys : List String)
    (row : List (Option Val)) : List (Option Val) :=
  if maskOf rcols keyCol keys row then
    setCellC rcols row "source" (some (.str "csv+api"))
  else row

/-- The source-column update at the end of the merge: rows whose key value
is one of the enrichment dict keys get source set to csv+api (pandas
creates the column when absent). -/
def updateSourceCol (rcols : List String) (rows : List (List (Option Val)))
    (keyCol : String) (keys : List String) : DF :=
  if "source" ∈ rcols then
    { cols := rcols
      rows := rows.map (applyMask rcols keyCol keys) }
  else
    { cols := rcols ++ ["source"]
      rows := rows.map (fun row =>
        row ++ [if maskOf rcols keyCol keys row then some (.str "csv+api") else none]) }

/-- The left-join output rows produced by one file row: one padded row
when no api row shares its key value, one merged row per matching api row
otherwise. pandas factorizes the NA keys of both sides into one shared
group, so a null file key matches exactly the null api keys — the plain
Option equality here. -/
def mergeStep (keyCol : String) (dfCols : List String) (adf : DF)
    (rcols : List String) (r : List (Option Val)) : List (List (Option Val)) :=
  let d := cellC dfCols r keyCol
  let ms := adf.rows.filter (fun a => cellC adf.cols a keyCol == d)
  if ms.isEmpty then [mergedRowU dfCols r rcols]
  else ms.map (fun a => mergedRowM dfCols r adf.cols a keyCol rcols)

def mergeRowsOf (keyCol : String) (dfCols : List String) (adf : DF)
    (rcols : List String) (rows : List (List (Option Val))) : List (List (Option Val)) :=
  rows.flatMap (mergeStep keyCol dfCols adf rcols)

/-- The merge body once the api DataFrame is known nonempty: output
columns are the file columns followed by the new api columns, rows are
the left-join output with the source tagging applied. -/
def mergeCore (keyCol : String) (adf : DF) (df : DF) (keys : List String) : DF :=
  updateSourceCol (df.cols ++ adf.cols.filter (fun c => !df.cols.contains c))
    (mergeRowsOf keyCol df.cols adf
      (df.cols ++ adf.cols.filter (fun c => !df.cols.contains c)) df.rows)
    keyCol keys

/-- The entity merge shared by _merge_api_org_data and
_merge_api_people_data: build the api DataFrame, left-join the file table
to it on the key column, fill NaN file values from api values, and tag the
source of key-matched rows. -/
def mergeApiData (keyCol : String) (mkBase : String → Rec → Dict)
    (mapping : List (String × String)) (dateCols : List String)
    (df : DF) (api : ApiData) : DF :=
  if api.isEmpty then df
  else if (apiDFOf mkBase mapping dateCols api).rows.isEmpty then df
  else mergeCore keyCol (apiDFOf mkBase mapping dateCols api) df (api.map (fun p => p.1))

/-- The fixed base dict of _merge_api_org_data, field for field. -/
def orgBaseRow (domain : String) (rec : Rec) : Dict :=
  [("domain", some (.str domain)),
   ("name", dictGet rec "name"),
   ("industry", dictGet rec "industry"),
   ("industries", some (.str (jsonOpt ((rec.lookup "industries").getD (some (.vlist [])))))),
   ("secondary_industries", some (.str (jsonOpt ((rec.lookup "secondary_industries").getD (some (.vlist [])))))),
   ("keywords", some (.str (jsonOpt ((rec.lookup "keywords").getD (some (.vlist [])))))),
   ("technology_names", some (.str (jsonOpt ((rec.lookup "technology_names").getD (some (.vlist [])))))),
   ("short_description", dictGet rec "short_description"),
   ("city", dictGet rec "city"),
   ("state", dictGet rec "state"),
   ("country", dictGet rec "country"),
   ("postal_code", dictGet rec "postal_code"),
   ("street_address", dictGet rec "street_address"),
   ("founded_year", dictGet rec "founded_year"),
   ("annual_revenue", dictGet rec "annual_revenue"),
   ("estimated_num_employees", dictGet rec "estimated_num_employees"),
   ("total_funding", dictGet rec "total_funding"),
   ("latest_funding_stage", dictGet rec "latest_funding_stage"),
   ("latest_funding_round_date", dictGet rec "latest_funding_round_date"),
   ("linkedin_url", dictGet rec "linkedin_url"),
   ("twitter_url", dictGet rec "twitter_url"),
   ("website_url", dictGet rec "website_url"),
   ("source", some (.str "api"))]

/-- The fixed base dict of _merge_api_people_data, field for field. -/
def peopleBaseRow (linkedin_url : String) (rec : Rec) : Dict :=
  [("linkedin_url", some (.str linkedin_url)),
   ("name", dictGet rec "name"),
   ("first_name", dictGet rec "first_name"),
   ("last_name", dictGet rec "last_name"),
   ("headline", dictGet rec "headline"),
   ("seniority", dictGet rec "seniority"),
   ("functions", some (.str (jsonOpt ((rec.lookup "functions").getD (some (.vlist [])))))),
   ("departments", some (.str (jsonOpt ((rec.lookup "departments").getD (some (.vlist [])))))),
   ("subdepartments", some (.str (jsonOpt ((rec.lookup "subdepartments").getD (some (.vlist [])))))),
   ("city", dictGet rec "city"),
   ("state", dictGet rec "state"),
   ("country", dictGet rec "country"),
   ("twitter_url", dictGet rec "twitter_url"),
   ("source", some (.str "api"))]

/-- _merge_api_org_data: merge API organization data with CSV data,
joined on domain, with the latest_funding_round_date column coerced to
datetime. -/
def merge_api_org_data (df : DF) (api : ApiData) : DF :=
  mergeApiData "domain" orgBaseRow ORGANIZATION_FIELD_MAPPINGS
    ["latest_funding_round_date"] df api

/-- _merge_api_people_data: merge API people data with CSV data, joined
on linkedin_url. -/
def merge_api_people_data (df : DF) (api : ApiData) : DF :=
  mergeApiData "linkedin_url" peopleBaseRow PEOPLE_FIELD_MAPPINGS [] df api

/-- The join produces at most one output row per file row exactly when
the api rows carry pairwise-distinct key values — null included, since a
null file key matches every null api key. -/
def KeysOk (keyCol : String) (adf : DF) : Prop :=
  adf.rows.Pairwise (fun a b =>
    cellC adf.cols a keyCol ≠ cellC adf.cols b keyCol)

instance (keyCol : String) (adf : DF) : Decidable (KeysOk keyCol adf) := by
  unfold KeysOk
  exact List.instDecidablePairwise _

/-- The api DataFrame built for the organization merge. -/
def orgApiDF (api : ApiData) : DF :=
  apiDFOf orgBaseRow ORGANIZATION_FIELD_MAPPINGS ["latest_funding_round_date"] api

/-- The api DataFrame built for the people merge. -/
def peopleApiDF (api : ApiData) : DF :=
  apiDFOf peopleBaseRow PEOPLE_FIELD_MAPPINGS [] api

/-- C7 counterexample input: two enrichment records whose payloads override
the join-key column domain to the same value. -/
def dfC7cx : DF := ⟨["domain", "source"], [[some (.str "x.com"), some (.str "csv")]]⟩

def apiC7cx : ApiData :=
  [("a.com", [("domain", some (.str "x.com"))]),
   ("b.com", [("domain", some (.str "x.com"))])]

/-- C7 witness inputs: one benign enrichment record per merge. -/
def dfC7w : DF :=
  ⟨["domain", "name", "source"], [[some (.str "a.com"), none, some (.str "csv")]]⟩

def apiC7w : ApiData := [("a.com", [("name", some (.str "Acme"))])]

def dfC7wp : DF :=
  ⟨["linkedin_url", "name", "source"], [[some (.str "li/alice"), none, some (.str "csv")]]⟩

def apiC7wp : ApiData := [("li/alice", [("name", some (.str "Alice"))])]

/-- C2 counterexample input: file total_funding 100, enrichment 500. -/
def dfC2cx : DF :=
  ⟨["domain", "total_funding", "source"],
   [[some (.str "a.com"), some (.int 100), some (.str "csv")]]⟩

def apiC2cx : ApiData := [("a.com", [("total_funding", some (.int 500))])]

/-! Generic list and dict utilities shared by the typed models. -/

/-- Python dict assignment for arbitrary key and value types. -/
def pyDictUpd {α β : Type} [DecidableEq α] (m : List (α × β)) (k : α) (v : β) :
    List (α × β) :=
  if m.any (fun q => q.1 = k) then m.map (fun q => if q.1 = k then (k, v) else q)
  else m ++ [(k, v)]

/-- A Python dict built by iterating pairs in order (later bindings for a
key overwrite earlier ones, keeping the original position). -/
def pyDict {α β : Type} [DecidableEq α] (l : List (α × β)) : List (α × β) :=
  l.foldl (fun m p => pyDictUpd m p.1 p.2) []

/-- First-occurrence deduplication with an accumulator of already-kept
elements. -/
def dedupFirstGo {α : Type} [DecidableEq α] (seen : List α) : List α → List α
  | [] => []
  | x :: xs =>
    if x ∈ seen then dedupFirstGo seen xs
    else x :: dedupFirstGo (seen ++ [x]) xs

/-- First-occurrence deduplication: pandas unique / drop_duplicates order. -/
def dedupFirst {α : Type} [DecidableEq α] (l : List α) : List α := dedupFirstGo [] l

/-! Typed rows for the jobs, people and organizations tables (the columns
the embedded code reads or writes). -/

/-- One row of the jobs table. The type field holds the synthetic rows'
constant job marker; job_type is the CSV column the founder filter reads. -/
structure JobRow where
  uuid : Option String := none
  type : Option String := none
  job_type : Option String := none
  person_uuid : Option String := none
  org_uuid : Option String := none
  org_name : Option String := none
  person_name : Option String := none
  name : Option String := none
  title : Option String := none
  started_on : Option Int := none
  ended_on : Option Int := none
  is_current : Option Bool := none
  description : Option String := none
  source : Option String := none
  created_at : Option Int := none
  updated_at : Option Int := none
  last_processed_at : Option Int := none
deriving DecidableEq, Repr

/-- One row of the people table (the columns the job enrichment and the
foreign-key repair read). -/
structure PersonRow where
  uuid : Option String := none
  name : Option String := none
  linkedin_url : Option String := none
deriving DecidableEq, Repr

/-- One row of the organizations table (the columns the founder-feature
derivation reads). -/
structure OrgRow where
  uuid : Option String := none
  category_list : Option String := none
  total_funding_usd : Option Int := none
  status : Option String := none
deriving DecidableEq, Repr

/-- One derived founder-features row (fields as inserted into the
founder_features table, including the source's num_aquisitions spelling). -/
structure FeatureRow where
  person_uuid : Option String := none
  total_companies_founded : Nat := 0
  company_categories : String := ""
  total_funding_raised : Int := 0
  num_aquisitions : Nat := 0
  leadership_roles_count : Nat := 0
deriving DecidableEq, Repr

/-- One employment-history entry from a person enrichment payload, with
the fields extract_all_data projects out of it. -/
structure ApiJob where
  organization_name : Option String := none
  title : Option String := none
  start_date : Option Val := none
  end_date : Option Val := none
  is_current : Bool := false
  description : Option String := none
deriving DecidableEq, Repr

/-! Extract stage (src/src/etl/extract.py, extract_csv_data). -/

/-- Set every cell of a column, creating the column when absent
(pandas column assignment with a scalar). -/
def setColAll (df : DF) (c : String) (v : Option Val) : DF :=
  if c ∈ df.cols then ⟨df.cols, df.rows.map (fun r => setCellC df.cols r c v)⟩
  else ⟨df.cols ++ [c], df.rows.map (fun r => r ++ [v])⟩

/-- Apply a per-cell function to a column if it is present. -/
def mapColIfPresent (df : DF) (c : String) (f : Option Val → Option Val) : DF :=
  if c ∈ df.cols then
    ⟨df.cols, df.rows.map (fun r => setCellC df.cols r c (f (cellC df.cols r c)))⟩
  else df

/-- The persisted last_processed dict keyed by uuid, as the code builds it
row by row from the query result (a later row for the same uuid
overwrites an earlier one, hence the reverse lookup). -/
def lastProcessedLookup (stored : List (String × Option Int)) (u : String) :
    Option (Option Int) :=
  stored.reverse.lookup u

/-- The incremental retention test exactly as the code's filter spells it:
rows whose uuid is not a stored key pass; stored rows pass when the stored
stamp is null or the row's updated_at is strictly newer. -/
def keepIncremental (stored : List (String × Option Int)) (cols : List String)
    (r : List (Option Val)) : Bool :=
  match cellC cols r "uuid" with
  | some (.str u) =>
    match lastProcessedLookup stored u with
    | none => true
    | some none => true
    | some (some t) =>
      match coerceDate (cellC cols r "updated_at") with
      | some (.date t2) => decide (t2 > t)
      | _ => false
  | _ => true

/-- The incremental filter: with no previously processed rows the full
table is returned, otherwise rows are filtered by the retention test. -/
def extract_incremental_filter (stored : List (String × Option Int)) (df : DF) : DF :=
  if stored.isEmpty then df
  else ⟨df.cols, df.rows.filter (keepIncremental stored df.cols)⟩

/-- The metadata steps of extract_csv_data: tag provenance csv, blank the
last_processed_at column, coerce the created_at and updated_at columns to
datetimes. -/
def prepare_csv_df (df : DF) : DF :=
  mapColIfPresent
    (mapColIfPresent
      (setColAll (setColAll df "source" (some (.str "csv"))) "last_processed_at" none)
      "created_at" coerceDate)
    "updated_at" coerceDate

/-- extract_csv_data: tag provenance and empty last_processed_at, coerce
the timestamp columns, and apply the incremental filter when requested
(file reading itself is outside the model: the table is the input). -/
def extract_csv_data (incremental : Bool) (stored : List (String × Option Int))
    (df : DF) : DF :=
  if incremental then extract_incremental_filter stored (prepare_csv_df df)
  else prepare_csv_df df

/-- The retention rule as the specification words it: keep rows whose
uuid is absent from the persisted (uuid, last_processed_at) set, present
with a null stored stamp, or present with a strictly newer updated_at
(first-binding lookup over the persisted set). -/
def specRetain (stored : List (String × Option Int)) (cols : List String)
    (r : List (Option Val)) : Bool :=
  match cellC cols r "uuid" with
  | some (.str u) =>
    match stored.lookup u with
    | none => true
    | some none => true
    | some (some t) =>
      match coerceDate (cellC cols r "updated_at") with
      | some (.date t2) => decide (t2 > t)
      | _ => false
  | _ => true

/-- C5 witness inputs: one stored stamp 5 for uuid x and a null stamp for
uuid z; rows with updated_at 4 and 6 for x, a new uuid y, and z. -/
def storedC5w : List (String × Option Int) := [("x", some 5), ("z", none)]

def dfC5w : DF :=
  ⟨["uuid", "updated_at"],
   [[some (.str "x"), some (.date 4)],
    [some (.str "x"), some (.date 6)],
    [some (.str "y"), some (.date 1)],
    [some (.str "z"), some (.date 1)]]⟩

/-! Job enrichment (transform.py, _enrich_jobs_with_api_data). -/

/-- The composite deduplication key: person_uuid, org_name, title,
started_on, ended_on. -/
def jobKey (j : JobRow) :
    Option String × Option String × Option String × Option Int × Option Int :=
  (j.person_uuid, j.org_name, j.title, j.started_on, j.ended_on)

/-- Project an optional value to a datetime Int after coercion. -/
def dateOf (v : Option Val) : Option Int :=
  match coerceDate v with
  | some (.date d) => some d
  | _ => none

/-- The uuid-to-linkedin dict built by zipping the people columns
(a later person with the same uuid overwrites an earlier one). -/
def uuidToLinkedinOf (people : List PersonRow) : List (Option String × Option String) :=
  pyDict (people.map (fun p => (p.uuid, p.linkedin_url)))

/-- The inverted linkedin-to-uuid dict, keeping only entries with a
truthy url. -/
def linkedinToUuidOf (people : List PersonRow) : List (String × Option String) :=
  pyDict ((uuidToLinkedinOf people).filterMap (fun q =>
    match q.2 with
    | some url => some (url, q.1)
    | none => none))

/-- One synthetic Job row built from one employment-history entry: the
generated uuid is api-personuuid-n where n is the running count of
synthetic rows, the source tag is api and the dates are coerced. -/
def mkSyntheticJob (pu : Option String) (j : ApiJob) (n : Nat) (ts : Int) : JobRow :=
  { uuid := some ("api-" ++ (match pu with | some s => s | none => "nan")
      ++ "-" ++ toString n),
    type := some "job",
    person_uuid := pu,
    org_name := j.organization_name,
    title := j.title,
    started_on := dateOf j.start_date,
    ended_on := dateOf j.end_date,
    is_current := some j.is_current,
    description := j.description,
    source := some "api",
    created_at := some ts,
    updated_at := some ts }

/-- The synthetic job rows derived from the employment histories of the
people whose profile url resolves to a known person; unresolvable urls
are skipped silently. -/
def newJobRowsOf (people : List PersonRow) (hist : List (String × List ApiJob))
    (ts : Int) : List JobRow :=
  hist.foldl (fun acc p =>
    match (linkedinToUuidOf people).lookup p.1 with
    | none => acc
    | some pu => p.2.foldl (fun acc j => acc ++ [mkSyntheticJob pu j acc.length ts]) acc) []

/-- First-occurrence deduplication of job rows on the composite key
(drop_duplicates keep first; NaN cells compare equal as pandas does). -/
def dropDupJobsGo (seen : List (Option String × Option String × Option String
    × Option Int × Option Int)) : List JobRow → List JobRow
  | [] => []
  | j :: js =>
    if jobKey j ∈ seen then dropDupJobsGo seen js
    else j :: dropDupJobsGo (seen ++ [jobKey j]) js

def drop_duplicates_jobs (l : List JobRow) : List JobRow := dropDupJobsGo [] l

/-- _enrich_jobs_with_api_data: drop jobs whose person reference is not a
people uuid, then union the synthetic rows after the file rows and
deduplicate on the composite key keeping the first occurrence. -/
def enrich_jobs_with_api_data (jobs : List JobRow) (people : List PersonRow)
    (hist : List (String × List ApiJob)) (ts : Int) : List JobRow :=
  let jobsF := jobs.filter (fun j => (people.map (fun p => p.uuid)).contains j.person_uuid)
  if hist.isEmpty then jobsF
  else
    if (newJobRowsOf people hist ts).isEmpty then jobsF
    else drop_duplicates_jobs (jobsF ++ newJobRowsOf people hist ts)

/-- C6 witness inputs: one person, one file job and one employment-history
entry that produces a synthetic row with the identical composite key. -/
def peopleC6w : List PersonRow :=
  [{ uuid := some "p1", name := some "Ann", linkedin_url := some "li/p" }]

def jobsC6w : List JobRow :=
  [{ uuid := some "j1", person_uuid := some "p1", org_name := some "Acme",
     title := some "CEO", started_on := some 100, source := some "csv" }]

def histC6w : List (String × List ApiJob) :=
  [("li/p", [{ organization_name := some "Acme", title := some "CEO",
               start_date := some (.date 100), is_current := true }])]

def keyC6w : Option String × Option String × Option String × Option Int × Option Int :=
  (some "p1", some "Acme", some "CEO", some 100, none)

/-! Cross-entity repair (transform.py, validate_foreign_keys). -/

/-- The non-null string values of a column: the valid-uuid sets are built
with dropna().unique() and used only through membership. -/
def colStrsDropNa (df : DF) (c : String) : List String :=
  df.rows.filterMap (fun r =>
    match cellC df.cols r c with
    | some (.str s) => some s
    | _ => none)

/-- Null out a job's organization reference when it is non-null and not a
known organization uuid. -/
def fixJobOrgRef (valid_org_uuids : List String) (j : JobRow) : JobRow :=
  match j.org_uuid with
  | some u => if valid_org_uuids.contains u then j else { j with org_uuid := none }
  | none => j

/-- A job's person reference resolves to a known person uuid (a null
person reference never does). -/
def jobPersonValid (valid_people_uuids : List String) (j : JobRow) : Bool :=
  match j.person_uuid with
  | some u => valid_people_uuids.contains u
  | none => false

/-- validate_foreign_keys: null invalid featured-organization references
in people, null invalid organization references in jobs, then drop jobs
whose person reference is invalid. -/
def validate_foreign_keys (orgs people : DF) (jobs : List JobRow) :
    DF × DF × List JobRow :=
  (orgs,
   mapColIfPresent people "featured_job_organization_uuid" (fun v =>
     match v with
     | some (.str s) =>
       if (colStrsDropNa orgs "uuid").contains s then some (.str s) else none
     | some _ => none
     | none => none),
   (jobs.map (fixJobOrgRef (colStrsDropNa orgs "uuid"))).filter
     (jobPersonValid (colStrsDropNa people "uuid")))

/-- C1 witness inputs: one organization o1, one person p1, three jobs —
valid, dangling organization reference, dangling person reference. -/
def orgsC1w : DF := ⟨["uuid", "name"], [[some (.str "o1"), some (.str "Acme")]]⟩

def peopleC1w : DF :=
  ⟨["uuid", "featured_job_organization_uuid"], [[some (.str "p1"), some (.str "oX")]]⟩

def jobsC1w : List JobRow :=
  [{ uuid := some "j1", person_uuid := some "p1", org_uuid := some "o1" },
   { uuid := some "j2", person_uuid := some "p1", org_uuid := some "oX" },
   { uuid := some "j3", person_uuid := some "pX", org_uuid := some "o1" }]

/-- The dangling-org job of the C1 witness after its repair. -/
def jobC1wFixed : JobRow :=
  { uuid := some "j2", person_uuid := some "p1", org_uuid := none }

/-! Founder features (src/src/etl/founder_features.py). -/

/-- A title contains the substring founder after lowercasing (na counts
false). -/
def titleHasFounder (t : Option String) : Bool :=
  match t with
  | some s => (s.toLower.splitOn "founder").length ≥ 2
  | none => false

/-- The founder filter of process_founder_features: job_type is founder or
the title contains founder. -/
def founderFlagged (j : JobRow) : Bool :=
  j.job_type == some "founder" || titleHasFounder j.title

/-- Strip one level of surrounding double quotes. -/
def stripQuotes (s : String) : String :=
  if s.startsWith "\"" ∧ s.endsWith "\"" then (s.drop 1).dropRight 1 else s

/-- Category-cell parsing: a bracketed JSON list of strings splits into
its items, a JSON scalar contributes nothing, and other text splits on
commas with the items stripped (approximates the json.loads branch for
the list-of-strings payloads the pipeline produces). -/
def parseCategoryCell (s : String) : List String :=
  if s.startsWith "[" ∧ s.endsWith "]" then
    (((s.drop 1).dropRight 1).splitOn ",").filterMap (fun t =>
      if stripQuotes t.trim = "" then none else some (stripQuotes t.trim))
  else if s.startsWith "\"" then []
  else if (s.trim.toInt?).isSome then []
  else (s.splitOn ",").map (fun t => t.trim)

/-- The founder's job rows: founder_jobs selected by person_uuid equality
(a null person uuid matches nothing, as pandas equality with NaN does). -/
def founderRowsFor (founder_jobs : List JobRow) (pu : Option String) : List JobRow :=
  match pu with
  | none => []
  | some u => founder_jobs.filter (fun j => j.person_uuid == some u)

/-- The distinct non-null org_uuid values among the founder's jobs. -/
def foundedOrgUuidsFor (founder_jobs : List JobRow) (pu : Option String) : List String :=
  dedupFirst ((founderRowsFor founder_jobs pu).filterMap (fun j => j.org_uuid))

/-- The organization rows whose uuid is one of the founder's org_uuids. -/
def foundedOrgsFor (founder_jobs : List JobRow) (orgs : List OrgRow)
    (pu : Option String) : List OrgRow :=
  orgs.filter (fun o =>
    match o.uuid with
    | some u => (foundedOrgUuidsFor founder_jobs pu).contains u
    | none => false)

/-- The feature record computed for one founder, or none when no founded
organization resolves (the continue branch). The set-ordering of the
category union is modelled as first-occurrence order. -/
def founderFeatureFor (founder_jobs : List JobRow) (orgs : List OrgRow)
    (pu : Option String) : Option FeatureRow :=
  if (foundedOrgsFor founder_jobs orgs pu).isEmpty then none
  else some
    { person_uuid := pu,
      total_companies_founded := (foundedOrgUuidsFor founder_jobs pu).length,
      company_categories := jsonVal (.vlist (dedupFirst
        ((foundedOrgsFor founder_jobs orgs pu).flatMap (fun o =>
          match o.category_list with
          | some s => parseCategoryCell s
          | none => [])))),
      total_funding_raised :=
        ((foundedOrgsFor founder_jobs orgs pu).filterMap
          (fun o => o.total_funding_usd)).sum,
      num_aquisitions :=
        ((foundedOrgsFor founder_jobs orgs pu).filter
          (fun o => o.status == some "acquired")).length,
      leadership_roles_count :=
        ((founderRowsFor founder_jobs pu).filter
          (fun j => j.job_type == some "executive")).length }

/-- transform_founder_data: one pass over the distinct
(person_uuid, person_name) pairs of the founder jobs, skipping founders
with no resolvable company. -/
def transform_founder_data (founder_jobs : List JobRow) (orgs : List OrgRow)
    (people : List PersonRow) : List FeatureRow :=
  (dedupFirst (founder_jobs.map (fun j => (j.person_uuid, j.person_name)))).filterMap
    (fun pr => founderFeatureFor founder_jobs orgs pr.1)

/-- The non-null organization uuids. -/
def orgUuids (orgs : List OrgRow) : List String :=
  orgs.filterMap (fun o => o.uuid)

/-- The first organization row with the given uuid. -/
def findOrg (orgs : List OrgRow) (v : String) : Option OrgRow :=
  orgs.find? (fun o => o.uuid == some v)

/-- The distinct org_uuid values among the founder's jobs that resolve to
a known organization: the specification's distinct resolved organizations. -/
def resolvedOrgUuidsFor (founder_jobs : List JobRow) (orgs : List OrgRow)
    (pu : Option String) : List String :=
  (foundedOrgUuidsFor founder_jobs pu).filter
    (fun v => orgs.any (fun o => o.uuid == some v))

/-- C8 witness inputs: the specification's concrete example — one person
with two founder jobs at two distinct organizations with funding
1,000,000 and 2,000,000, one of them acquired. -/
def jobsC8w : List JobRow :=
  [{ uuid := some "j1", person_uuid := some "p1", person_name := some "Pat",
     org_uuid := some "o1", job_type := some "founder", title := some "Founder" },
   { uuid := some "j2", person_uuid := some "p1", person_name := some "Pat",
     org_uuid := some "o2", job_type := some "founder", title := some "Co-Founder" }]

def orgsC8w : List OrgRow :=
  [{ uuid := some "o1", total_funding_usd := some 1000000, status := some "operating" },
   { uuid := some "o2", total_funding_usd := some 2000000, status := some "acquired" }]

/-- The feature row the C8 witness inputs produce. -/
def featC8w : FeatureRow := (transform_founder_data jobsC8w orgsC8w []).getD 0 {}

/-! The sqlite store and the persistence layer (src/src/db/connection.py,
src/src/etl/load.py). get_connection yields a fresh connection each time
it is entered, so each commit below applies immediately to the shared
committed store, and a rollback on a connection with no pending writes
changes nothing. -/

/-- One stored table: its declared columns and committed rows. -/
structure DBTable where
  cols : List String
  rows : List (List (Option Val))
deriving DecidableEq, Repr

/-- The committed database: an association of table names to tables
(a name not present means the table was never created). -/
structure DBState where
  tabs : List (String × DBTable)
deriving DecidableEq, Repr

def tabLookup (st : DBState) (tname : String) : Option DBTable :=
  st.tabs.lookup tname

/-- Replace an existing table (a missing name is left missing: the load
stage never creates tables). -/
def tabSet (st : DBState) (tname : String) (t : DBTable) : DBState :=
  ⟨st.tabs.map (fun p => if p.1 = tname then (tname, t) else p)⟩

/-- The value coercions of _prepare_row_for_insert: empty lists become
NULL, other lists serialize to their json text, NaN becomes NULL,
datetimes stringify, scalars pass through. -/
def prepareVal : Option Val → Option Val
  | none => none
  | some (.vlist []) => none
  | some (.vlist l) => some (.str (jsonVal (.vlist l)))
  | some (.str s) => some (.str s)
  | some (.int n) => some (.int n)
  | some (.vbool b) => some (.vbool b)
  | some (.date d) => some (.str (toString d))

/-- The prepared row: every table column, taking the prepared dataframe
value when the column exists there and NULL otherwise. -/
def preparedRowOf (cols dfCols : List String) (r : List (Option Val)) :
    List (String × Option Val) :=
  cols.map (fun c => (c, if c ∈ dfCols then prepareVal (cellC dfCols r c) else none))

/-- SQL equality in a WHERE clause: NULL equals nothing. -/
def sqlEq : Option Val → Option Val → Bool
  | some a, some b => a == b
  | _, _ => false

/-- One row of the upsert loop: check existence by primary key, update all
columns of matching rows or insert; a failed insert (insOk abstracts the
constraint check, since the schema files are not part of src) is counted
and skipped; a missing primary-key column (the prepared row of a
nonexistent table is empty) raises KeyError. -/
def bulkStep (insOk : List (String × Option Val) → Bool) (cols dfCols : List String)
    (pk : String) (acc : Except String (List (List (Option Val)) × Nat))
    (r : List (Option Val)) : Except String (List (List (Option Val)) × Nat) :=
  match acc with
  | .error e => .error e
  | .ok (rows, fails) =>
    match (preparedRowOf cols dfCols r).lookup pk with
    | none => .error "KeyError: primary key column missing"
    | some pkv =>
      if rows.any (fun tr => sqlEq (cellC cols tr pk) pkv) then
        .ok (rows.map (fun tr =>
          if sqlEq (cellC cols tr pk) pkv then
            cols.map (fun c => dictGet (preparedRowOf cols dfCols r) c)
          else tr), fails)
      else if insOk (preparedRowOf cols dfCols r) then
        .ok (rows ++ [cols.map (fun c => dictGet (preparedRowOf cols dfCols r) c)], fails)
      else .ok (rows, fails + 1)

/-- _bulk_upsert: upsert every row of the batch against the table, commit
on success (the new table state), roll back leaving the store untouched on
a raise; the failure count is returned for logging. -/
def bulk_upsert (insOk : List (String × Option Val) → Bool) (st : DBState)
    (tname : String) (df : DF) (pk : String) : Except String (DBState × Nat) :=
  let cols := match tabLookup st tname with | some t => t.cols | none => []
  let rows0 := match tabLookup st tname with | some t => t.rows | none => []
  match df.rows.foldl (bulkStep insOk cols df.cols pk) (.ok (rows0, 0)) with
  | .error e => .error e
  | .ok (rows, fails) => .ok (tabSet st tname ⟨cols, rows⟩, fails)

/-- Split a list into chunks of the given size, with fuel bounded by the
list length (structural recursion; the fuel never runs out for a positive
chunk size). -/
def chunkGo {α : Type} (n : Nat) : Nat → List α → List (List α)
  | _, [] => []
  | 0, l => [l]
  | Nat.succ fuel, x :: xs => (x :: xs).take n :: chunkGo n fuel ((x :: xs).drop n)

/-- Split a list into chunks of the given size (the whole list when the
size is zero, where the source would raise). -/
def chunkList {α : Type} (n : Nat) (l : List α) : List (List α) :=
  if n = 0 then [l] else chunkGo n l.length l

/-- load_data: open a fresh connection and upsert batch by batch,
committing after each batch, so the batches before a raising one stay
committed and the error propagates. -/
def load_data (insOk : List (String × Option Val) → Bool) (st : DBState) (df : DF)
    (tname : String) (pk : String) (batchSize : Nat) : DBState × Option String :=
  (chunkList batchSize df.rows).foldl (fun acc batch =>
    match acc.2 with
    | some _ => acc
    | none =>
      match bulk_upsert insOk acc.1 tname ⟨df.cols, batch⟩ pk with
      | .ok (st', _) => (st', none)
      | .error e => (acc.1, some e)) (st, none)

/-! Founder-feature persistence (src/src/etl/founder_features.py,
load_founder_features and process_founder_features). -/

/-- The cells of one founder_features insert, aligned to the table's
columns (the insert names the six feature columns; person_uuid is the
conflict key per the data model — the schema files are not part of src). -/
def featureCells (cols : List String) (f : FeatureRow) : List (Option Val) :=
  cols.map (fun c =>
    if c = "person_uuid" then f.person_uuid.map Val.str
    else if c = "total_companies_founded" then some (.int f.total_companies_founded)
    else if c = "company_categories" then some (.str f.company_categories)
    else if c = "total_funding_raised" then some (.int f.total_funding_raised)
    else if c = "num_aquisitions" then some (.int f.num_aquisitions)
    else if c = "leadership_roles_count" then some (.int f.leadership_roles_count)
    else none)

/-- INSERT OR REPLACE of one feature row: delete the conflicting row for
the same person_uuid, append the new row. -/
def insertOrReplaceFF (t : DBTable) (f : FeatureRow) : DBTable :=
  ⟨t.cols,
   t.rows.filter (fun r =>
     !(sqlEq (cellC t.cols r "person_uuid") (f.person_uuid.map Val.str)))
   ++ [featureCells t.cols f]⟩

/-- load_founder_features: nothing to do for an empty feature set; insert
or replace each row into founder_features and commit, raising when the
table does not exist (the cursor execute fails before any commit). -/
def load_founder_features (st : DBState) (feats : List FeatureRow) :
    Except String DBState :=
  if feats.isEmpty then .ok st
  else
    match tabLookup st "founder_features" with
    | none => .error "no such table: founder_features"
    | some t => .ok (tabSet st "founder_features" (feats.foldl insertOrReplaceFF t))

/-- The transform step applied to the founder-filtered jobs. -/
def founderFeatsOf (jobs : List JobRow) (orgs : List OrgRow)
    (people : List PersonRow) : List FeatureRow :=
  transform_founder_data (jobs.filter founderFlagged) orgs people

/-- Load the computed features and return them with the resulting store. -/
def loadStep (st : DBState) (feats : List FeatureRow) :
    Except String (List FeatureRow × DBState) :=
  match load_founder_features st feats with
  | .error e => .error e
  | .ok st' => .ok (feats, st')

/-- The body of process_founder_features inside its try block: a missing
jobs table raises on the founder filter; a missing organizations table
raises only when a founder iteration reaches it; transform then load. -/
def founderBody (st : DBState) (jobs? : Option (List JobRow))
    (orgs? : Option (List OrgRow)) (people? : Option (List PersonRow)) :
    Except String (List FeatureRow × DBState) :=
  match jobs? with
  | none => .error "TypeError: jobs_df is None"
  | some jobs =>
    match orgs? with
    | some orgs => loadStep st (founderFeatsOf jobs orgs (people?.getD []))
    | none =>
      if (dedupFirst ((jobs.filter founderFlagged).map
            (fun j => (j.person_uuid, j.person_name)))).isEmpty then
        loadStep st (founderFeatsOf jobs [] (people?.getD []))
      else .error "TypeError: organizations_df is None"

/-- process_founder_features: return None without touching the store when
no connection is given; otherwise run the body and catch every exception
into a None return, leaving the store as it was (a failing body never
reached its commit). -/
def process_founder_features (conn : Bool) (st : DBState)
    (jobs? : Option (List JobRow)) (orgs? : Option (List OrgRow))
    (people? : Option (List PersonRow)) : Option (List FeatureRow) × DBState :=
  if !conn then (none, st)
  else
    match founderBody st jobs? orgs? people? with
    | .ok (f, st') => (some f, st')
    | .error _ => (none, st)

/-! load_all_data (load.py): the outer connection's BEGIN TRANSACTION and
ROLLBACK act on a connection that never holds pending writes, because each
load_data call opens its own connections and commits per batch; the
founder-feature step runs on the outer connection after its COMMIT. -/

/-- The fixed column list of the jobs table model. -/
def jobsCols : List String :=
  ["uuid", "type", "job_type", "person_uuid", "org_uuid", "org_name",
   "person_name", "name", "title", "started_on", "ended_on", "is_current",
   "description", "source", "created_at", "updated_at", "last_processed_at"]

def jobCells (j : JobRow) : List (Option Val) :=
  [j.uuid.map Val.str, j.type.map Val.str, j.job_type.map Val.str,
   j.person_uuid.map Val.str, j.org_uuid.map Val.str, j.org_name.map Val.str,
   j.person_name.map Val.str, j.name.map Val.str, j.title.map Val.str,
   j.started_on.map Val.date, j.ended_on.map Val.date, j.is_current.map Val.vbool,
   j.description.map Val.str, j.source.map Val.str, j.created_at.map Val.date,
   j.updated_at.map Val.date, j.last_processed_at.map Val.date]

def jobsDFOf (jobs : List JobRow) : DF := ⟨jobsCols, jobs.map jobCells⟩

/-- Project a cell to its string payload. -/
def strCell (cols : List String) (r : List (Option Val)) (c : String) : Option String :=
  match cellC cols r c with
  | some (.str s) => some s
  | _ => none

/-- Project a cell to its integer payload. -/
def intCell (cols : List String) (r : List (Option Val)) (c : String) : Option Int :=
  match cellC cols r c with
  | some (.int n) => some n
  | _ => none

def orgRowsOfDF (df : DF) : List OrgRow :=
  df.rows.map (fun r =>
    { uuid := strCell df.cols r "uuid",
      category_list := strCell df.cols r "category_list",
      total_funding_usd := intCell df.cols r "total_funding_usd",
      status := strCell df.cols r "status" })

def personRowsOfDF (df : DF) : List PersonRow :=
  df.rows.map (fun r =>
    { uuid := strCell df.cols r "uuid",
      name := strCell df.cols r "name",
      linkedin_url := strCell df.cols r "linkedin_url" })

/-- load_all_data: organizations, then people, then jobs, each through
load_data with its per-batch commits on fresh connections; an exception
propagates after the outer no-op ROLLBACK, leaving every already-committed
batch in the store; on success the founder features run on the outer
connection. -/
def load_all_data (insOk : List (String × Option Val) → Bool) (st : DBState)
    (orgsDF peopleDF : DF) (jobs : List JobRow) (batchSize : Nat) :
    DBState × Option String :=
  match load_data insOk st orgsDF "organizations" "uuid" batchSize with
  | (s1, some e) => (s1, some e)
  | (s1, none) =>
    match load_data insOk s1 peopleDF "people" "uuid" batchSize with
    | (s2, some e) => (s2, some e)
    | (s2, none) =>
      match load_data insOk s2 (jobsDFOf jobs) "jobs" "uuid" batchSize with
      | (s3, some e) => (s3, some e)
      | (s3, none) =>
        ((process_founder_features true s3 (some jobs)
            (some (orgRowsOfDF orgsDF)) (some (personRowsOfDF peopleDF))).2, none)

/-! C10: process_founder_features swallows every failure. -/

/-- The founder_features table's column list. -/
def ffCols : List String :=
  ["person_uuid", "total_companies_founded", "company_categories",
   "total_funding_raised", "num_aquisitions", "leadership_roles_count"]

def stC10w : DBState :=
  ⟨[("organizations", ⟨["uuid"], [[some (.str "o1")]]⟩),
    ("founder_features", ⟨ffCols, []⟩)]⟩

/-! C4: founder_features persistence is insert-or-replace, not
delete-all-then-insert: stale rows for people absent from the new feature
set survive. -/

def p1cellsC4 : List (Option Val) :=
  [some (.str "p1"), some (.int 1), some (.str "[]"), some (.int 0),
   some (.int 0), some (.int 0)]

def stC4cx : DBState := ⟨[("founder_features", ⟨ffCols, [p1cellsC4]⟩)]⟩

def featC4cx : FeatureRow :=
  { person_uuid := some "p2", total_companies_founded := 1,
    company_categories := "[]", total_funding_raised := 5000,
    num_aquisitions := 0, leadership_roles_count := 0 }

def stC4after : DBState :=
  match load_founder_features stC4cx [featC4cx] with
  | .ok st' => st'
  | .error _ => ⟨[]⟩

def tC4w : DBTable := ⟨ffCols, []⟩

def stC4w : DBState := ⟨[("founder_features", tC4w)]⟩

def featC4w : FeatureRow := { person_uuid := some "p9" }

/-! C3: the three-entity load is not atomic. load_data commits per batch
on connections of its own, so the outer BEGIN/ROLLBACK in load_all_data
rolls back a connection that holds no writes. -/

def orgsC3df : DF := ⟨["uuid", "name"], [[some (.str "o1"), some (.str "Acme")]]⟩

def peopleC3df : DF := ⟨["uuid"], [[some (.str "p1")]]⟩

def jobC3 : JobRow := { uuid := some "j1", person_uuid := some "p1" }

def stC3 : DBState :=
  ⟨[("organizations", ⟨["uuid", "name"], []⟩), ("people", ⟨["uuid"], []⟩)]⟩

def runC3 : DBState × Option String :=
  load_all_data (fun _ => true) stC3 orgsC3df peopleC3df [jobC3] 1000

/-! The enrichment client's authentication probe (src/src/api/client.py,
_verify_auth) and the orchestrator around it (src/run_pipeline.py). -/

/-- The outcome of the probe request GET base_url/: the request failed
(connection error or raise_for_status on a non-2xx reply), or it returned
a JSON body. -/
inductive ProbeResult where
  | requestError : ProbeResult
  | ok : Dict → ProbeResult
deriving DecidableEq, Repr

/-- _verify_auth, run by the ApiClient constructor: any outcome other
than a successful response whose body holds Authenticated: True raises
ValueError (in the unauthenticated branch the log call's reference to the
undefined name e raises NameError inside the try, which the except clause
turns into the same ValueError). -/
def verify_auth : ProbeResult → Except String Unit
  | .requestError => .error "API authentication failed"
  | .ok body =>
    if dictGet body "Authenticated" = some (.vbool true) then .ok ()
    else .error "API authentication failed"

/-- The probe acknowledged authentication (the only case where ApiClient
construction succeeds). -/
def probeAuthed : ProbeResult → Bool
  | .requestError => false
  | .ok body => dictGet body "Authenticated" == some (.vbool true)

/-- run_pipeline's client initialization: ApiClient() runs the probe in
its constructor; the orchestrator catches the raise and continues with
api_client = None. -/
def initApiClient (probe : ProbeResult) : Option Unit :=
  match verify_auth probe with
  | .ok u => some u
  | .error _ => none

/-! The extract stage around the client (src/src/etl/extract.py,
extract_organizations / extract_people / extract_jobs /
extract_all_data). The network is an oracle: fetchOrg and fetchPerson
give the reply each batched request would produce. -/

/-- One person enrichment payload: the flat record the merge consumes and
the employment_history list extract_all_data projects job entries from. -/
structure PersonPayload where
  record : Rec := []
  employment_history : List ApiJob := []
deriving DecidableEq, Repr

/-- Python dict truthiness of a payload. -/
def payloadEmpty (p : PersonPayload) : Bool :=
  p.record.isEmpty && p.employment_history.isEmpty

/-- batch_get_organization_data unioned over all batches: one entry per
domain whose request returned a truthy body. -/
def batchFetchOrgs (fetchOrg : String → Option Rec) (domains : List String) :
    ApiData :=
  domains.filterMap (fun d =>
    match fetchOrg d with
    | some r => if r.isEmpty then none else some (d, r)
    | none => none)

/-- batch_get_person_data unioned over all batches. -/
def batchFetchPeople (fetchPerson : String → Option PersonPayload)
    (urls : List String) : List (String × PersonPayload) :=
  urls.filterMap (fun u =>
    match fetchPerson u with
    | some p => if payloadEmpty p then none else some (u, p)
    | none => none)

/-- extract_organizations: the csv extraction, and — only when a client
exists — the api data for the distinct non-null domains of the extracted
table. -/
def extract_organizations (client : Option Unit) (fetchOrg : String → Option Rec)
    (incremental : Bool) (stored : List (String × Option Int)) (csv : DF) :
    DF × ApiData :=
  (extract_csv_data incremental stored csv,
   match client with
   | none => []
   | some _ =>
     batchFetchOrgs fetchOrg
       (dedupFirst (colStrsDropNa (extract_csv_data incremental stored csv) "domain")))

/-- extract_people: the csv extraction, and — only when a client exists —
the api data for the distinct non-null linkedin urls. -/
def extract_people (client : Option Unit)
    (fetchPerson : String → Option PersonPayload) (incremental : Bool)
    (stored : List (String × Option Int)) (csv : DF) :
    DF × List (String × PersonPayload) :=
  (extract_csv_data incremental stored csv,
   match client with
   | none => []
   | some _ =>
     batchFetchPeople fetchPerson
       (dedupFirst (colStrsDropNa (extract_csv_data incremental stored csv)
         "linkedin_url")))

/-- is_current mapping: the strings TRUE and FALSE map to booleans,
everything else maps to NaN and is filled with False. -/
def mapIsCurrent : Option Val → Option Val
  | some (.str "TRUE") => some (.vbool true)
  | some (.str "FALSE") => some (.vbool false)
  | _ => some (.vbool false)

/-- extract_jobs: the csv extraction with its date and boolean
conversions (no api part). -/
def extract_jobs (incremental : Bool) (stored : List (String × Option Int))
    (csv : DF) : DF :=
  mapColIfPresent
    (mapColIfPresent
      (mapColIfPresent (extract_csv_data incremental stored csv)
        "started_on" coerceDate)
      "ended_on" coerceDate)
    "is_current" mapIsCurrent

/-- The api job history grouped by linkedin url: people api entries with
a nonempty employment_history (dict keys are distinct, so the defaultdict
grouping is the history list per url). -/
def jobHistoryOf (peopleApi : List (String × PersonPayload)) :
    List (String × List ApiJob) :=
  peopleApi.filterMap (fun p =>
    if p.2.employment_history.isEmpty then none
    else some (p.1, p.2.employment_history))

/-- The value extract_all_data returns. -/
structure ExtractedData where
  orgs : DF × ApiData
  people : DF × List (String × PersonPayload)
  jobs : DF
  api_job_history : List (String × List ApiJob)
deriving DecidableEq, Repr

/-- extract_all_data: the three entity extractions, plus the api job
history — which, like the api data, exists only when a client does. -/
def extract_all_data (client : Option Unit) (fetchOrg : String → Option Rec)
    (fetchPerson : String → Option PersonPayload) (incremental : Bool)
    (storedOrgs storedPeople storedJobs : List (String × Option Int))
    (orgsCsv peopleCsv jobsCsv : DF) : ExtractedData :=
  ⟨extract_organizations client fetchOrg incremental storedOrgs orgsCsv,
   extract_people client fetchPerson incremental storedPeople peopleCsv,
   extract_jobs incremental storedJobs jobsCsv,
   match client with
   | none => []
   | some _ =>
     jobHistoryOf
       (extract_people client fetchPerson incremental storedPeople peopleCsv).2⟩

/-! The transform stage's cleaning steps (src/src/etl/transform.py,
transform_organizations / transform_people / transform_jobs /
transform_all_data). -/

/-- Python str() on a cell value (the reasonable textual forms; name
columns in practice hold strings, which pass through unchanged). -/
def pyStr : Val → String
  | .str s => s
  | .int n => toString n
  | .date d => toString d
  | .vbool true => "True"
  | .vbool false => "False"
  | .vlist l => jsonVal (.vlist l)

/-- Collapse whitespace runs to single spaces and strip the ends. -/
def normSpace (s : String) : String :=
  String.intercalate " " ((s.split (fun c => c.isWhitespace)).filter
    (fun x => x ≠ ""))

/-- _standardize_names: NaN stays NaN, anything else stringifies with
normalized whitespace. -/
def standardize_names : Option Val → Option Val
  | none => none
  | some v => some (.str (normSpace (pyStr v)))

/-- The .str.lower().str.strip() chain (a non-string cell becomes NaN
under the .str accessor). -/
def strLowerStrip : Option Val → Option Val
  | some (.str s) => some (.str s.toLower.trim)
  | _ => none

/-- The domain assignment: lowercase and strip when the column exists,
otherwise create the column filled with NaN. -/
def transformDomain (df : DF) : DF :=
  if "domain" ∈ df.cols then mapColIfPresent df "domain" strLowerStrip
  else setColAll df "domain" none

def stripBrackets (s : String) : String :=
  if s.startsWith "[" && s.endsWith "]" then (s.drop 1).dropRight 1 else s

def listItems (s : String) : List String :=
  (((stripBrackets s.trim).splitOn ",").map String.trim).filter (fun x => x ≠ "")

/-- _parse_list_field: NaN stays NaN; a list serializes to json; a string
loses surrounding brackets, splits on commas, drops blank items and
serializes, or becomes NaN when nothing remains; anything else is NaN. -/
def parse_list_field : Option Val → Option Val
  | some (.vlist l) => some (.str (jsonVal (.vlist l)))
  | some (.str s) =>
    if (listItems s).isEmpty then none
    else some (.str (jsonVal (.vlist (listItems s))))
  | _ => none

/-- Standardize a name column (the source indexes the column directly;
on the expected schemas it is present). -/
def applyStd (df : DF) (c : String) : DF := mapColIfPresent df c standardize_names

def applyListField (df : DF) (c : String) : DF := mapColIfPresent df c parse_list_field

def applyDate (df : DF) (c : String) : DF := mapColIfPresent df c coerceDate

/-- transform_organizations: standardize names, normalize the domain,
parse the list columns, coerce the date columns, stamp
last_processed_at, and merge the api data. -/
def transform_organizations (data : DF × ApiData) (ts : Int) : DF :=
  merge_api_org_data
    (setColAll
      (applyDate
        (applyDate
          (applyDate
            (applyListField
              (applyListField
                (applyListField
                  (transformDomain (applyStd (applyStd data.1 "name") "legal_name"))
                  "category_list")
                "category_groups_list")
              "roles")
            "founded_on")
          "last_funding_on")
        "closed_on")
      "last_processed_at" (some (.date ts)))
    data.2

/-- transform_people: standardize names, null the not_provided gender
placeholder, stamp last_processed_at, and merge the api records. -/
def transform_people (data : DF × List (String × PersonPayload)) (ts : Int) : DF :=
  merge_api_people_data
    (setColAll
      (mapColIfPresent
        (applyStd (applyStd (applyStd data.1 "name") "first_name") "last_name")
        "gender" (fun v => if v = some (.str "not_provided") then none else v))
      "last_processed_at" (some (.date ts)))
    (data.2.map (fun p => (p.1, p.2.record)))

/-- Project a cell to its datetime payload. -/
def dateCell (cols : List String) (r : List (Option Val)) (c : String) : Option Int :=
  match cellC cols r c with
  | some (.date d) => some d
  | _ => none

/-- Project a cell to its boolean payload. -/
def boolCell (cols : List String) (r : List (Option Val)) (c : String) : Option Bool :=
  match cellC cols r c with
  | some (.vbool b) => some b
  | _ => none

/-- The typed projection of a jobs table (the fields the enrichment,
validation, load and founder stages read). -/
def jobRowsOfDF (df : DF) : List JobRow :=
  df.rows.map (fun r =>
    { uuid := strCell df.cols r "uuid",
      type := strCell df.cols r "type",
      job_type := strCell df.cols r "job_type",
      person_uuid := strCell df.cols r "person_uuid",
      org_uuid := strCell df.cols r "org_uuid",
      org_name := strCell df.cols r "org_name",
      person_name := strCell df.cols r "person_name",
      name := strCell df.cols r "name",
      title := strCell df.cols r "title",
      started_on := dateCell df.cols r "started_on",
      ended_on := dateCell df.cols r "ended_on",
      is_current := boolCell df.cols r "is_current",
      description := strCell df.cols r "description",
      source := strCell df.cols r "source",
      created_at := dateCell df.cols r "created_at",
      updated_at := dateCell df.cols r "updated_at",
      last_processed_at := dateCell df.cols r "last_processed_at" })

/-- transform_jobs: standardize the name columns, coerce the date
columns, stamp last_processed_at, and enrich against the transformed
people and the api job history. -/
def transform_jobs (csv : DF) (people_df : DF)
    (hist : List (String × List ApiJob)) (ts : Int) : List JobRow :=
  enrich_jobs_with_api_data
    (jobRowsOfDF
      (setColAll
        (applyDate
          (applyDate
            (applyStd (applyStd (applyStd (applyStd csv "name") "title") "org_name")
              "person_name")
            "started_on")
          "ended_on")
        "last_processed_at" (some (.date ts))))
    (personRowsOfDF people_df) hist ts

/-- transform_all_data: organizations, people, jobs (against the
transformed people), then the foreign-key repair. -/
def transform_all_data (ex : ExtractedData) (ts : Int) : DF × DF × List JobRow :=
  validate_foreign_keys
    (transform_organizations ex.orgs ts)
    (transform_people ex.people ts)
    (transform_jobs ex.jobs (transform_people ex.people ts) ex.api_job_history ts)

/-- run_pipeline's data path: construct the client (catching a probe
failure into None), extract, transform, load. -/
def run_pipeline (probe : ProbeResult) (fetchOrg : String → Option Rec)
    (fetchPerson : String → Option PersonPayload) (incremental : Bool)
    (storedOrgs storedPeople storedJobs : List (String × Option Int))
    (orgsCsv peopleCsv jobsCsv : DF) (ts : Int)
    (insOk : List (String × Option Val) → Bool) (st : DBState) (batchSize : Nat) :
    DBState × Option String :=
  load_all_data insOk st
    (transform_all_data
      (extract_all_data (initApiClient probe) fetchOrg fetchPerson incremental
        storedOrgs storedPeople storedJobs orgsCsv peopleCsv jobsCsv) ts).1
    (transform_all_data
      (extract_all_data (initApiClient probe) fetchOrg fetchPerson incremental
        storedOrgs storedPeople storedJobs orgsCsv peopleCsv jobsCsv) ts).2.1
    (transform_all_data
      (extract_all_data (initApiClient probe) fetchOrg fetchPerson incremental
        storedOrgs storedPeople storedJobs orgsCsv peopleCsv jobsCsv) ts).2.2
    batchSize

/-- The degraded pipeline the specification promises after a probe
failure, modelled from the spec's words for comparison: csv-only
extraction, transformation against an empty enrichment mapping and empty
job history, then the load. -/
def run_pipeline_file_only (incremental : Bool)
    (storedOrgs storedPeople storedJobs : List (String × Option Int))
    (orgsCsv peopleCsv jobsCsv : DF) (ts : Int)
    (insOk : List (String × Option Val) → Bool) (st : DBState) (batchSize : Nat) :
    DBState × Option String :=
  load_all_data insOk st
    (transform_all_data
      ⟨(extract_csv_data incremental storedOrgs orgsCsv, []),
       (extract_csv_data incremental storedPeople peopleCsv, []),
       extract_jobs incremental storedJobs jobsCsv, []⟩ ts).1
    (transform_all_data
      ⟨(extract_csv_data incremental storedOrgs orgsCsv, []),
       (extract_csv_data incremental storedPeople peopleCsv, []),
       extract_jobs incremental storedJobs jobsCsv, []⟩ ts).2.1
    (transform_all_data
      ⟨(extract_csv_data incremental storedOrgs orgsCsv, []),
       (extract_csv_data incremental storedPeople peopleCsv, []),
       extract_jobs incremental storedJobs jobsCsv, []⟩ ts).2.2
    batchSize

def probeC9w : ProbeResult := .ok [("Authenticated", some (.str "nope"))]

def csvC9w : DF := ⟨["uuid", "name"], []⟩

def stC9w : DBState := ⟨[]⟩

/-! Theorems. -/

theorem cellC_map (cols : List String) (f : String → Option Val) (c : String) :
    cellC cols (cols.map f) c = if c ∈ cols then f c else none := by
  induction cols with
  | nil => simp [cellC]
  | cons c0 cs ih =>
    by_cases h : c0 = c
    · subst h; simp [cellC]
    · simp [cellC, h, ih, Ne.symm h]

theorem cellC_some_mem {cols : List String} {row : List (Option Val)} {c : String}
    {v : Val} (h : cellC cols row c = some v) : c ∈ cols := by
  induction cols generalizing row with
  | nil => simp [cellC] at h
  | cons c0 cs ih =>
    match row with
    | [] => simp [cellC] at h
    | x :: xs =>
      by_cases hc : c0 = c
      · subst hc; exact List.mem_cons_self _ _
      · simp only [cellC, if_neg hc] at h
        exact List.mem_cons_of_mem _ (ih h)

theorem setCellC_map_nodup (cols : List String) (f : String → Option Val)
    (c : String) (w : Option Val) (hnd : cols.Nodup) :
    setCellC cols (cols.map f) c w = cols.map (fun x => if x = c then w else f x) := by
  induction cols with
  | nil => simp [setCellC]
  | cons c0 cs ih =>
    rcases List.nodup_cons.mp hnd with ⟨hni, hnd'⟩
    by_cases h : c0 = c
    · subst h
      have hcs : cs.map (fun x => if x = c0 then w else f x) = cs.map f :=
        List.map_congr_left (fun x hx => by
          have hne : x ≠ c0 := fun hxc => hni (hxc ▸ hx)
          simp [hne])
      simp [setCellC, hcs]
    · simp [setCellC, h, ih hnd']

theorem cellC_setCellC_ne (cols : List String) (row : List (Option Val))
    (c c' : String) (w : Option Val) (h : c' ≠ c) :
    cellC cols (setCellC cols row c w) c' = cellC cols row c' := by
  induction cols generalizing row with
  | nil => rfl
  | cons c0 cs ih =>
    match row with
    | [] => rfl
    | x :: xs =>
      by_cases h0 : c0 = c
      · subst h0
        simp [setCellC, cellC, Ne.symm h]
      · by_cases h1 : c0 = c'
        · subst h1; simp [setCellC, cellC, h0]
        · simp [setCellC, cellC, h0, h1, ih]

/-! Supporting lemmas about cells, dicts and the api DataFrame. -/

theorem cellC_not_mem {cols : List String} (row : List (Option Val)) {c : String}
    (h : c ∉ cols) : cellC cols row c = none := by
  induction cols generalizing row with
  | nil => rfl
  | cons c0 cs ih =>
    match row with
    | [] => rfl
    | x :: xs =>
      have hc : c0 ≠ c := fun he => h (he ▸ List.mem_cons_self _ _)
      simp only [cellC, if_neg hc]
      exact ih _ (fun hm => h (List.mem_cons_of_mem _ hm))

theorem dictUpd_keys (d : Dict) (k : String) (v : Option Val) :
    (dictUpd d k v).map (fun p => p.1)
      = if d.any (fun p => p.1 = k) then d.map (fun p => p.1)
        else d.map (fun p => p.1) ++ [k] := by
  unfold dictUpd
  by_cases hp : d.any (fun p => p.1 = k)
  · simp only [hp, if_true, List.map_map]
    refine List.map_congr_left (fun p _ => ?_)
    by_cases he : p.1 = k
    · simp [Function.comp, if_pos he, he]
    · simp [Function.comp, if_neg he]
  · simp [hp]

theorem dictUpd_keys_superset {d : Dict} {k : String} (k' : String) (v : Option Val)
    (h : k ∈ d.map (fun p => p.1)) : k ∈ (dictUpd d k' v).map (fun p => p.1) := by
  rw [dictUpd_keys]
  by_cases hp : d.any (fun p => p.1 = k')
  · simpa [hp] using h
  · simp only [hp, if_false]
    exact List.mem_append_left _ h

theorem applyOverrides_keys_superset (mapping : List (String × String)) (base : Dict)
    (rec : Rec) {k : String} (h : k ∈ base.map (fun p => p.1)) :
    k ∈ (applyOverrides mapping base rec).map (fun p => p.1) := by
  unfold applyOverrides
  induction rec generalizing base with
  | nil => exact h
  | cons p ps ih => exact ih _ (dictUpd_keys_superset _ _ h)

theorem mem_orderedUnion_of_mem_head {ks : List String} {rest : List (List String)}
    {k : String} (h : k ∈ ks) : k ∈ orderedUnion (ks :: rest) := by
  unfold orderedUnion
  have hbase : k ∈ ([] : List String) ++ ks.filter (fun x => !List.contains [] x) := by
    simpa using h
  have : ∀ (ls : List (List String)) (acc : List String), k ∈ acc →
      k ∈ ls.foldl (fun acc ks => acc ++ ks.filter (fun x => !acc.contains x)) acc := by
    intro ls
    induction ls with
    | nil => intro acc hk; exact hk
    | cons l ls ih =>
      intro acc hk
      exact ih _ (List.mem_append_left _ hk)
  simpa using this rest _ hbase

theorem orderedUnion_nodup {ls : List (List String)} (h : ∀ l ∈ ls, l.Nodup) :
    (orderedUnion ls).Nodup := by
  unfold orderedUnion
  have : ∀ (ls : List (List String)) (acc : List String), (∀ l ∈ ls, l.Nodup) → acc.Nodup →
      (ls.foldl (fun acc ks => acc ++ ks.filter (fun x => !acc.contains x)) acc).Nodup := by
    intro ls
    induction ls with
    | nil => intro acc _ ha; exact ha
    | cons l ls ih =>
      intro acc hl ha
      refine ih _ (fun x hx => hl x (List.mem_cons_of_mem _ hx)) ?_
      refine List.Nodup.append ha ((hl l (List.mem_cons_self _ _)).filter _) ?_
      intro x hx hxf
      have hcf := List.of_mem_filter hxf
      simp only [Bool.not_eq_true'] at hcf
      have hct : acc.contains x = true := List.elem_eq_true_of_mem hx
      rw [hct] at hcf
      exact Bool.noConfusion hcf
  exact this ls [] h List.nodup_nil

theorem apiRowsOf_keys_nodup (mkBase : String → Rec → Dict)
    (mapping : List (String × String)) (api : ApiData)
    (hb : ∀ k rec, ((mkBase k rec).map (fun p => p.1)).Nodup) :
    ∀ d ∈ apiRowsOf mkBase mapping api, (d.map (fun p => p.1)).Nodup := by
  have hupd : ∀ (d : Dict) (k : String) (v : Option Val),
      (d.map (fun p => p.1)).Nodup → ((dictUpd d k v).map (fun p => p.1)).Nodup := by
    intro d k v hd
    rw [dictUpd_keys]
    by_cases hp : d.any (fun p => p.1 = k)
    · simpa [hp] using hd
    · simp only [hp, if_false]
      refine List.Nodup.append hd (List.nodup_singleton _) ?_
      intro x hx hxk
      simp only [List.mem_singleton] at hxk
      subst hxk
      have : d.any (fun p => p.1 = x) := by
        rcases List.mem_map.mp hx with ⟨p, hpd, hpk⟩
        exact List.any_eq_true.mpr ⟨p, hpd, by simp [hpk]⟩
      exact hp this
  have hov : ∀ (base : Dict) (rec : Rec), (base.map (fun p => p.1)).Nodup →
      ((applyOverrides mapping base rec).map (fun p => p.1)).Nodup := by
    intro base rec
    unfold applyOverrides
    induction rec generalizing base with
    | nil => intro h; exact h
    | cons p ps ih => intro h; exact ih _ (hupd _ _ _ h)
  have : ∀ (api : ApiData) (acc : List Dict),
      (∀ d ∈ acc, (d.map (fun p => p.1)).Nodup) →
      ∀ d ∈ api.foldl (fun acc p =>
        if p.2.isEmpty then acc
        else acc ++ [applyOverrides mapping (mkBase p.1 p.2) p.2]) acc,
        (d.map (fun p => p.1)).Nodup := by
    intro api
    induction api with
    | nil => intro acc hacc; exact hacc
    | cons p ps ih =>
      intro acc hacc
      simp only [List.foldl_cons]
      refine ih _ (fun d hd => ?_)
      by_cases hpe : p.2.isEmpty
      · rw [if_pos hpe] at hd; exact hacc d hd
      · rw [if_neg hpe] at hd
        rcases List.mem_append.mp hd with hd | hd
        · exact hacc d hd
        · rcases List.mem_singleton.mp hd with rfl
          exact hov _ _ (hb _ _)
  exact this api [] (by intro d hd; simp at hd)

theorem apiDFOf_cols_nodup (mkBase : String → Rec → Dict)
    (mapping : List (String × String)) (dateCols : List String) (api : ApiData)
    (hb : ∀ k rec, ((mkBase k rec).map (fun p => p.1)).Nodup) :
    (apiDFOf mkBase mapping dateCols api).cols.Nodup := by
  unfold apiDFOf
  refine orderedUnion_nodup (fun l hl => ?_)
  rcases List.mem_map.mp hl with ⟨d, hd, rfl⟩
  exact apiRowsOf_keys_nodup mkBase mapping api hb d hd

theorem contains_eq_true_of_mem {l : List String} {a : String} (h : a ∈ l) :
    l.contains a = true := List.elem_eq_true_of_mem h

theorem contains_eq_false_of_not_mem {l : List String} {a : String} (h : a ∉ l) :
    l.contains a = false := by
  by_contra hc
  exact h (List.mem_of_elem_eq_true (eq_true_of_ne_false hc))

theorem filter_key_singleton {cols : List String} {keyCol : String}
    {l : List (List (Option Val))}
    (hp : l.Pairwise (fun a b => cellC cols a keyCol ≠ cellC cols b keyCol))
    {a : List (Option Val)} {d : Option Val}
    (ha : a ∈ l) (hak : cellC cols a keyCol = d) :
    l.filter (fun b => cellC cols b keyCol == d) = [a] := by
  induction l with
  | nil => cases ha
  | cons x xs ih =>
    rcases List.pairwise_cons.mp hp with ⟨hx, hxs⟩
    by_cases hxk : cellC cols x keyCol = d
    · have hnil : xs.filter (fun b => cellC cols b keyCol == d) = [] := by
        rw [List.filter_eq_nil_iff]
        intro b hb
        have hne := hx b hb
        rw [hxk] at hne
        simp only [beq_iff_eq]
        exact fun he => hne he.symm
      have hax : a = x := by
        rcases List.mem_cons.mp ha with h | h
        · exact h
        · exfalso
          have hne := hx a h
          rw [hak, hxk] at hne
          exact hne rfl
      subst hax
      simp [List.filter_cons, hxk, hnil]
    · have hax : a ∈ xs := by
        rcases List.mem_cons.mp ha with h | h
        · exact absurd (h ▸ hak) hxk
        · exact h
      have hrec := ih hxs hax
      simp [List.filter_cons, hxk, hrec]

theorem orElse_eq_self {o p : Option Val} (h : o = none → p = none) :
    (o.orElse fun _ => p) = o := by
  cases o with
  | none => simp [Option.orElse, h rfl]
  | some x => rfl

theorem orElse_eq_none {o p : Option Val}
    (h : (o.orElse fun _ => p) = none) : o = none ∧ p = none := by
  cases o with
  | none => exact ⟨rfl, by simpa [Option.orElse] using h⟩
  | some x => simp [Option.orElse] at h

theorem map_flatMap_eq {α β γ : Type} (g : β → γ) (f : α → List β) (l : List α) :
    (l.flatMap f).map g = l.flatMap (fun a => (f a).map g) := by
  induction l with
  | nil => rfl
  | cons x xs ih => simp [List.flatMap_cons, ih]

theorem flatMap_id_of_forall {α : Type} {l : List α} {f : α → List α}
    (h : ∀ a ∈ l, f a = [a]) : l.flatMap f = l := by
  induction l with
  | nil => rfl
  | cons x xs ih =>
    simp [List.flatMap_cons, h x (List.mem_cons_self _ _),
      ih (fun a ha => h a (List.mem_cons_of_mem _ ha))]

theorem applyMask_self {rcols keys : List String} {keyCol : String}
    {g : String → Option Val} (hrnd : rcols.Nodup)
    (hg4 : maskOf rcols keyCol keys (rcols.map g) = true →
      g "source" = some (.str "csv+api")) :
    applyMask rcols keyCol keys (rcols.map g) = rcols.map g := by
  unfold applyMask
  by_cases hm : maskOf rcols keyCol keys (rcols.map g) = true
  · rw [if_pos hm, setCellC_map_nodup _ _ _ _ hrnd]
    refine List.map_congr_left (fun c _ => ?_)
    by_cases hcs : c = "source"
    · rw [if_pos hcs, hcs, hg4 hm]
    · rw [if_neg hcs]
  · rw [if_neg hm]

theorem maskOf_applyMask (rcols keys : List String) (keyCol : String)
    (hkc : keyCol ≠ "source") (row : List (Option Val)) :
    maskOf rcols keyCol keys (applyMask rcols keyCol keys row)
      = maskOf rcols keyCol keys row := by
  unfold applyMask
  by_cases hm : maskOf rcols keyCol keys row = true
  · rw [if_pos hm]
    unfold maskOf
    rw [cellC_setCellC_ne _ _ _ _ _ hkc]
  · rw [if_neg hm]

/-- The source-column update of a row in mapped form: the result is again
a mapped row, agreeing with the input off the source column. -/
theorem applyMask_spec (rcols keys : List String) (keyCol : String)
    (hrnd : rcols.Nodup) (hkc : keyCol ≠ "source") (f : String → Option Val) :
    ∃ g : String → Option Val,
      applyMask rcols keyCol keys (rcols.map f) = rcols.map g
      ∧ g keyCol = f keyCol
      ∧ (∀ c, g c = none → f c = none)
      ∧ (maskOf rcols keyCol keys (applyMask rcols keyCol keys (rcols.map f)) = true →
          g "source" = some (.str "csv+api")) := by
  by_cases hm : maskOf rcols keyCol keys (rcols.map f) = true
  · refine ⟨fun c => if c = "source" then some (.str "csv+api") else f c,
      ?_, if_neg hkc, ?_, fun _ => if_pos rfl⟩
    · unfold applyMask
      rw [if_pos hm, setCellC_map_nodup _ _ _ _ hrnd]
    · intro c hc
      have hc' : (if c = "source" then some (Val.str "csv+api") else f c) = none := hc
      by_cases hcs : c = "source"
      · rw [if_pos hcs] at hc'; cases hc'
      · rwa [if_neg hcs] at hc'
  · refine ⟨f, ?_, rfl, fun c h => h, ?_⟩
    · unfold applyMask; rw [if_neg hm]
    · intro hmm
      rw [maskOf_applyMask _ _ _ hkc] at hmm
      exact absurd hmm hm

/-- Characterization of the rows the merge emits: each is a mapped row
over the output columns, its key cell reproduces the file row's key cell,
its api match set is empty or the singleton that filled it, and a masked
row carries the csv+api source tag. -/
theorem merge_output_row_spec (keyCol : String) (dcols : List String) (adf : DF)
    (rcols keys : List String) (rows : List (List (Option Val)))
    (hdsub : ∀ c ∈ dcols, c ∈ rcols)
    (hrnd : rcols.Nodup)
    (hks : KeysOk keyCol adf)
    (hkc : keyCol ≠ "source")
    (row' : List (Option Val))
    (hmem : row' ∈ (mergeRowsOf keyCol dcols adf rcols rows).map
      (applyMask rcols keyCol keys)) :
    ∃ (g : String → Option Val) (d : Option Val),
      row' = rcols.map g
      ∧ (if keyCol ∈ rcols then g keyCol else none) = d
      ∧ ((adf.rows.filter (fun a => cellC adf.cols a keyCol == d)) = []
         ∨ ∃ a, (adf.rows.filter (fun a => cellC adf.cols a keyCol == d)) = [a]
             ∧ ∀ c, c ∈ adf.cols → c ≠ keyCol → g c = none → cellC adf.cols a c = none)
      ∧ (maskOf rcols keyCol keys row' = true → g "source" = some (.str "csv+api")) := by
  rcases List.mem_map.mp hmem with ⟨row₀, hrow₀, hrm⟩
  rcases List.mem_flatMap.mp hrow₀ with ⟨r, hr, hstep⟩
  simp only [mergeStep] at hstep
  by_cases hms : (adf.rows.filter (fun a =>
      cellC adf.cols a keyCol == cellC dcols r keyCol)).isEmpty
  · rw [if_pos hms] at hstep
    rcases List.mem_singleton.mp hstep with rfl
    have hU : mergedRowU dcols r rcols
        = rcols.map (fun c => if c ∈ dcols then cellC dcols r c else none) := rfl
    rcases applyMask_spec rcols keys keyCol hrnd hkc
        (fun c => if c ∈ dcols then cellC dcols r c else none) with ⟨g, hg, hgk, hgn, hgs⟩
    refine ⟨g, cellC dcols r keyCol, ?_, ?_, Or.inl (List.isEmpty_iff.mp hms), ?_⟩
    · rw [← hrm, hU, hg]
    · by_cases hkr : keyCol ∈ rcols
      · rw [if_pos hkr, hgk]
        by_cases hkd : keyCol ∈ dcols
        · rw [if_pos hkd]
        · rw [if_neg hkd, cellC_not_mem r hkd]
      · rw [if_neg hkr]
        have hkd : keyCol ∉ dcols := fun hkd => hkr (hdsub _ hkd)
        rw [cellC_not_mem r hkd]
    · rw [← hrm, hU]
      exact hgs
  · rw [if_neg hms] at hstep
    rcases List.mem_map.mp hstep with ⟨a, hams, hrow0⟩
    rcases List.mem_filter.mp hams with ⟨haa, hpred⟩
    have hcak : cellC adf.cols a keyCol = cellC dcols r keyCol := beq_iff_eq.mp hpred
    have hsingle : adf.rows.filter (fun b =>
        cellC adf.cols b keyCol == cellC dcols r keyCol) = [a] :=
      filter_key_singleton hks haa hcak
    have hMf : mergedRowM dcols r adf.cols a keyCol rcols
        = rcols.map (fun c =>
            if c ∈ dcols then
              if c ∈ adf.cols ∧ c ≠ keyCol then
                (cellC dcols r c).orElse (fun _ => cellC adf.cols a c)
              else cellC dcols r c
            else cellC adf.cols a c) := rfl
    rcases applyMask_spec rcols keys keyCol hrnd hkc
        (fun c =>
          if c ∈ dcols then
            if c ∈ adf.cols ∧ c ≠ keyCol then
              (cellC dcols r c).orElse (fun _ => cellC adf.cols a c)
            else cellC dcols r c
          else cellC adf.cols a c) with ⟨g, hg, hgk, hgn, hgs⟩
    refine ⟨g, cellC dcols r keyCol, ?_, ?_, Or.inr ⟨a, hsingle, ?_⟩, ?_⟩
    · rw [← hrm, ← hrow0, hMf, hg]
    · have hna : ¬(keyCol ∈ adf.cols ∧ keyCol ≠ keyCol) := fun h => h.2 rfl
      by_cases hkr : keyCol ∈ rcols
      · rw [if_pos hkr, hgk]
        by_cases hkd : keyCol ∈ dcols
        · rw [if_pos hkd, if_neg hna]
        · rw [if_neg hkd]
          exact hcak
      · rw [if_neg hkr]
        have hkd : keyCol ∉ dcols := fun h => hkr (hdsub _ h)
        rw [cellC_not_mem r hkd]
    · intro c hca hck hgc
      have hfc := hgn c hgc
      by_cases hcd : c ∈ dcols
      · rw [if_pos hcd, if_pos ⟨hca, hck⟩] at hfc
        exact (orElse_eq_none hfc).2
      · rwa [if_neg hcd] at hfc
    · rw [← hrm, ← hrow0, hMf]
      exact hgs

/-- Re-merging a row that already is a merge output reproduces it: the
core of the idempotency argument, stated for one output row presented as
a column-indexed value function. -/
theorem mergeStep_applyMask_self (keyCol : String) (adf : DF)
    (rcols keys : List String) (hrnd : rcols.Nodup)
    (row' : List (Option Val)) (g : String → Option Val) (d : Option Val)
    (hg1 : row' = rcols.map g)
    (hg2 : (if keyCol ∈ rcols then g keyCol else none) = d)
    (hg3 : (adf.rows.filter (fun a => cellC adf.cols a keyCol == d)) = []
        ∨ ∃ a, (adf.rows.filter (fun a => cellC adf.cols a keyCol == d)) = [a]
            ∧ ∀ c, c ∈ adf.cols → c ≠ keyCol → g c = none → cellC adf.cols a c = none)
    (hg4 : maskOf rcols keyCol keys row' = true → g "source" = some (.str "csv+api")) :
    (mergeStep keyCol rcols adf rcols row').map (applyMask rcols keyCol keys) = [row'] := by
  have hcell : ∀ c, cellC rcols row' c = if c ∈ rcols then g c else none := by
    intro c; rw [hg1]; exact cellC_map _ _ _
  have hdd : cellC rcols row' keyCol = d := by rw [hcell]; exact hg2
  rcases hg3 with hnil | ⟨a, hsingle, hprop⟩
  · have hred : mergeStep keyCol rcols adf rcols row' = [mergedRowU rcols row' rcols] := by
      simp only [mergeStep, hdd, hnil, List.isEmpty_nil, if_true]
    have hU : mergedRowU rcols row' rcols = row' := by
      unfold mergedRowU
      conv_rhs => rw [hg1]
      refine List.map_congr_left (fun c hc => ?_)
      rw [if_pos hc, hcell, if_pos hc]
    rw [hred, List.map_cons, List.map_nil, hU, hg1,
      applyMask_self hrnd (by rw [← hg1]; exact hg4), ← hg1]
  · have hred : mergeStep keyCol rcols adf rcols row'
        = [mergedRowM rcols row' adf.cols a keyCol rcols] := by
      simp only [mergeStep, hdd, hsingle, List.isEmpty_cons, Bool.false_eq_true, if_false,
        List.map_cons, List.map_nil]
    have hM : mergedRowM rcols row' adf.cols a keyCol rcols = row' := by
      unfold mergedRowM
      conv_rhs => rw [hg1]
      refine List.map_congr_left (fun c hc => ?_)
      rw [if_pos hc]
      by_cases hca : c ∈ adf.cols ∧ c ≠ keyCol
      · rw [if_pos hca, hcell, if_pos hc]
        exact orElse_eq_self (hprop c hca.1 hca.2)
      · rw [if_neg hca, hcell, if_pos hc]
    rw [hred, List.map_cons, List.map_nil, hM, hg1,
      applyMask_self hrnd (by rw [← hg1]; exact hg4), ← hg1]

/-- Idempotency of the entity merge, provided the api rows carry pairwise
distinct key values after the payload override loop — null included, so at
most one api row may carry a null key, since the join matches the null
keys of both sides against each other (which holds whenever no payload
rewrites the key column to a colliding or null value), and the file table
has well-formed (duplicate-free) column names. -/
theorem mergeApiData_idem (keyCol : String) (mkBase : String → Rec → Dict)
    (mapping : List (String × String)) (dateCols : List String)
    (df : DF) (api : ApiData)
    (hnd : df.cols.Nodup)
    (hb : ∀ k rec, ((mkBase k rec).map (fun p => p.1)).Nodup)
    (hks : KeysOk keyCol (apiDFOf mkBase mapping dateCols api))
    (hkc : keyCol ≠ "source")
    (hsc : "source" ∈ (apiDFOf mkBase mapping dateCols api).cols
           ∨ (apiDFOf mkBase mapping dateCols api).rows = []) :
    mergeApiData keyCol mkBase mapping dateCols
        (mergeApiData keyCol mkBase mapping dateCols df api) api
      = mergeApiData keyCol mkBase mapping dateCols df api := by
  by_cases hapi : api.isEmpty
  · simp [mergeApiData, hapi]
  · by_cases hrows : (apiDFOf mkBase mapping dateCols api).rows.isEmpty
    · unfold mergeApiData
      rw [if_neg hapi, if_pos hrows, if_neg hapi, if_pos hrows]
    · have hsrc : "source" ∈ (apiDFOf mkBase mapping dateCols api).cols := by
        rcases hsc with h | h
        · exact h
        · exact absurd (by rw [h]; rfl) hrows
      have hand : (apiDFOf mkBase mapping dateCols api).cols.Nodup :=
        apiDFOf_cols_nodup mkBase mapping dateCols api hb
      set adf := apiDFOf mkBase mapping dateCols api with hadf
      set keys := api.map (fun p => p.1) with hkeys
      set rcols := df.cols ++ adf.cols.filter (fun c => !df.cols.contains c) with hrcols
      have hdsub : ∀ c ∈ df.cols, c ∈ rcols := fun c hc => List.mem_append_left _ hc
      have hasub : ∀ c ∈ adf.cols, c ∈ rcols := by
        intro c hc
        by_cases hcd : c ∈ df.cols
        · exact List.mem_append_left _ hcd
        · refine List.mem_append_right _ (List.mem_filter.mpr ⟨hc, ?_⟩)
          rw [contains_eq_false_of_not_mem hcd]
          rfl
      have hrnd : rcols.Nodup := by
        refine List.Nodup.append hnd (hand.filter _) ?_
        intro c hcd hcf
        have hmem := List.of_mem_filter hcf
        rw [contains_eq_true_of_mem hcd] at hmem
        simp at hmem
      have hsrcr : "source" ∈ rcols := hasub _ hsrc
      have hM : mergeApiData keyCol mkBase mapping dateCols df api
          = mergeCore keyCol adf df keys := by
        unfold mergeApiData
        rw [← hadf, ← hkeys, if_neg hapi, if_neg hrows]
      have hL : mergeApiData keyCol mkBase mapping dateCols
            (mergeCore keyCol adf df keys) api
          = mergeCore keyCol adf (mergeCore keyCol adf df keys) keys := by
        unfold mergeApiData
        rw [← hadf, ← hkeys, if_neg hapi, if_neg hrows]
      have hMeq : mergeCore keyCol adf df keys
          = ⟨rcols, (mergeRowsOf keyCol df.cols adf rcols df.rows).map
              (applyMask rcols keyCol keys)⟩ := by
        unfold mergeCore updateSourceCol
        rw [← hrcols, if_pos hsrcr]
      have hfil2 : adf.cols.filter (fun c => !rcols.contains c) = [] := by
        rw [List.filter_eq_nil_iff]
        intro c hc
        rw [contains_eq_true_of_mem (hasub _ hc)]
        simp
      rw [hM, hL, hMeq]
      unfold mergeCore updateSourceCol
      simp only []
      rw [hfil2, List.append_nil, if_pos hsrcr]
      refine congrArg (DF.mk rcols) ?_
      unfold mergeRowsOf
      rw [map_flatMap_eq]
      refine flatMap_id_of_forall (fun row' hrow' => ?_)
      obtain ⟨g, d, hg1, hg2, hg3, hg4⟩ :=
        merge_output_row_spec keyCol df.cols adf rcols keys df.rows hdsub hrnd hks hkc
          row' hrow'
      exact mergeStep_applyMask_self keyCol adf rcols keys hrnd row' g d hg1 hg2 hg3 hg4

theorem apiRowsOf_forall {P : Dict → Prop} (mkBase : String → Rec → Dict)
    (mapping : List (String × String)) (api : ApiData)
    (h : ∀ k rec, P (applyOverrides mapping (mkBase k rec) rec)) :
    ∀ d ∈ apiRowsOf mkBase mapping api, P d := by
  have hgen : ∀ (api : ApiData) (acc : List Dict), (∀ d ∈ acc, P d) →
      ∀ d ∈ api.foldl (fun acc p =>
        if p.2.isEmpty then acc
        else acc ++ [applyOverrides mapping (mkBase p.1 p.2) p.2]) acc, P d := by
    intro api
    induction api with
    | nil => intro acc hacc; exact hacc
    | cons p ps ih =>
      intro acc hacc
      simp only [List.foldl_cons]
      refine ih _ (fun d hd => ?_)
      by_cases hpe : p.2.isEmpty
      · rw [if_pos hpe] at hd; exact hacc d hd
      · rw [if_neg hpe] at hd
        rcases List.mem_append.mp hd with hd | hd
        · exact hacc d hd
        · rcases List.mem_singleton.mp hd with rfl
          exact h _ _
  exact hgen api [] (by intro d hd; simp at hd)

theorem source_mem_apiDF_cols (mkBase : String → Rec → Dict)
    (mapping : List (String × String)) (dateCols : List String) (api : ApiData)
    (hbsrc : ∀ k rec, "source" ∈ (mkBase k rec).map (fun p => p.1))
    (hne : ¬ (apiDFOf mkBase mapping dateCols api).rows.isEmpty = true) :
    "source" ∈ (apiDFOf mkBase mapping dateCols api).cols := by
  have hall : ∀ d ∈ apiRowsOf mkBase mapping api, "source" ∈ d.map (fun p => p.1) :=
    apiRowsOf_forall mkBase mapping api
      (fun k rec => applyOverrides_keys_superset mapping _ rec (hbsrc k rec))
  unfold apiDFOf at hne ⊢
  match hd : apiRowsOf mkBase mapping api with
  | [] => rw [hd] at hne; simp at hne
  | d :: ds =>
    rw [hd] at hall
    simp only [List.map_cons]
    exact mem_orderedUnion_of_mem_head (hall d (List.mem_cons_self _ _))

theorem orgBaseRow_keys_nodup (k : String) (rec : Rec) :
    ((orgBaseRow k rec).map (fun p => p.1)).Nodup := by
  simp only [orgBaseRow, List.map_cons, List.map_nil]
  decide

theorem orgBaseRow_has_source (k : String) (rec : Rec) :
    "source" ∈ (orgBaseRow k rec).map (fun p => p.1) := by
  simp only [orgBaseRow, List.map_cons, List.map_nil]
  decide

theorem peopleBaseRow_keys_nodup (k : String) (rec : Rec) :
    ((peopleBaseRow k rec).map (fun p => p.1)).Nodup := by
  simp only [peopleBaseRow, List.map_cons, List.map_nil]
  decide

theorem peopleBaseRow_has_source (k : String) (rec : Rec) :
    "source" ∈ (peopleBaseRow k rec).map (fun p => p.1) := by
  simp only [peopleBaseRow, List.map_cons, List.map_nil]
  decide

/-- C7 counterexample: the entity merge is not idempotent for every file
table and enrichment mapping — when two enrichment payloads rewrite the
join key to one shared value, the left join duplicates the matching file
row and each further merge duplicates it again (1 row, then 2, then 4). -/
theorem C7_counterexample :
    merge_api_org_data (merge_api_org_data dfC7cx apiC7cx) apiC7cx
      ≠ merge_api_org_data dfC7cx apiC7cx := by
  decide

/-- C7 (amended): re-running the organization merge or the people merge on
its own output with the same enrichment mapping (including the empty one)
yields identical output, provided the file table's column names are
duplicate-free and the enrichment rows carry pairwise-distinct join-key
values after the payload override loop — null keys included, because the
join groups the null keys of both sides together, so at most one
enrichment row may carry a null key; in particular the proviso holds
whenever no enrichment payload rewrites the join-key column to a colliding
or null value. -/
theorem C7_merge_idem_amended :
    (∀ (df : DF) (api : ApiData), df.cols.Nodup → KeysOk "domain" (orgApiDF api) →
      merge_api_org_data (merge_api_org_data df api) api = merge_api_org_data df api)
    ∧ (∀ (df : DF) (api : ApiData), df.cols.Nodup → KeysOk "linkedin_url" (peopleApiDF api) →
      merge_api_people_data (merge_api_people_data df api) api
        = merge_api_people_data df api) := by
  constructor
  · intro df api hnd hks
    refine mergeApiData_idem _ _ _ _ _ _ hnd orgBaseRow_keys_nodup hks (by decide) ?_
    by_cases h : (apiDFOf orgBaseRow ORGANIZATION_FIELD_MAPPINGS
        ["latest_funding_round_date"] api).rows.isEmpty
    · exact Or.inr (List.isEmpty_iff.mp h)
    · exact Or.inl (source_mem_apiDF_cols _ _ _ _ orgBaseRow_has_source h)
  · intro df api hnd hks
    refine mergeApiData_idem _ _ _ _ _ _ hnd peopleBaseRow_keys_nodup hks (by decide) ?_
    by_cases h : (apiDFOf peopleBaseRow PEOPLE_FIELD_MAPPINGS [] api).rows.isEmpty
    · exact Or.inr (List.isEmpty_iff.mp h)
    · exact Or.inl (source_mem_apiDF_cols _ _ _ _ peopleBaseRow_has_source h)

/-- C7 witness: the amended idempotency applied at concrete inputs. -/
theorem C7_merge_idem_amended_witness :
    merge_api_org_data (merge_api_org_data dfC7w apiC7w) apiC7w
        = merge_api_org_data dfC7w apiC7w
    ∧ merge_api_people_data (merge_api_people_data dfC7wp apiC7wp) apiC7wp
        = merge_api_people_data dfC7wp apiC7wp :=
  ⟨C7_merge_idem_amended.1 dfC7w apiC7w (by decide) (by decide),
   C7_merge_idem_amended.2 dfC7wp apiC7wp (by decide) (by decide)⟩

/-- C2 counterexample: with file value 100 and enrichment value 500 for
the same organization's total_funding, the merged value is 100 (the file
value), not the maximum 500 — the merge has no funding-specific maximum
rule, only the general fillna precedence. -/
theorem C2_counterexample :
    cellC (merge_api_org_data dfC2cx apiC2cx).cols
        ((merge_api_org_data dfC2cx apiC2cx).rows.getD 0 []) "total_funding"
      = some (.int 100)
    ∧ cellC (merge_api_org_data dfC2cx apiC2cx).cols
        ((merge_api_org_data dfC2cx apiC2cx).rows.getD 0 []) "total_funding"
      ≠ some (.int 500) := by
  decide

theorem mergeApiData_file_wins (keyCol : String) (mkBase : String → Rec → Dict)
    (mapping : List (String × String)) (dateCols : List String)
    (df : DF) (api : ApiData)
    (hbsrc : ∀ k rec, "source" ∈ (mkBase k rec).map (fun p => p.1))
    (row' : List (Option Val))
    (hmem : row' ∈ (mergeApiData keyCol mkBase mapping dateCols df api).rows) :
    ∃ r ∈ df.rows, ∀ c, c ∈ df.cols → c ≠ "source" →
      ∀ v : Val, cellC df.cols r c = some v →
        cellC (mergeApiData keyCol mkBase mapping dateCols df api).cols row' c
          = some v := by
  unfold mergeApiData at hmem ⊢
  by_cases hapi : api.isEmpty
  · rw [if_pos hapi] at hmem ⊢
    exact ⟨row', hmem, fun c hc hcs v hv => hv⟩
  · rw [if_neg hapi] at hmem ⊢
    by_cases hrows : (apiDFOf mkBase mapping dateCols api).rows.isEmpty
    · rw [if_pos hrows] at hmem ⊢
      exact ⟨row', hmem, fun c hc hcs v hv => hv⟩
    · rw [if_neg hrows] at hmem ⊢
      have hsrc : "source" ∈ (apiDFOf mkBase mapping dateCols api).cols :=
        source_mem_apiDF_cols _ _ _ _ hbsrc hrows
      set adf := apiDFOf mkBase mapping dateCols api with hadf
      set keys := api.map (fun p => p.1) with hkeys
      set rcols := df.cols ++ adf.cols.filter (fun c => !df.cols.contains c) with hrcols
      have hsrcr : "source" ∈ rcols := by
        by_cases hcd : "source" ∈ df.cols
        · exact List.mem_append_left _ hcd
        · refine List.mem_append_right _ (List.mem_filter.mpr ⟨hsrc, ?_⟩)
          rw [contains_eq_false_of_not_mem hcd]
          rfl
      have hMeq : mergeCore keyCol adf df keys
          = ⟨rcols, (mergeRowsOf keyCol df.cols adf rcols df.rows).map
              (applyMask rcols keyCol keys)⟩ := by
        unfold mergeCore updateSourceCol
        rw [← hrcols, if_pos hsrcr]
      rw [hMeq] at hmem ⊢
      rcases List.mem_map.mp hmem with ⟨row₀, h₀, hap⟩
      rcases List.mem_flatMap.mp h₀ with ⟨r, hr, hstep⟩
      refine ⟨r, hr, fun c hc hcs v hv => ?_⟩
      have hcr : c ∈ rcols := List.mem_append_left _ hc
      have hcell0 : cellC rcols row' c = cellC rcols row₀ c := by
        rw [← hap]
        unfold applyMask
        by_cases hm : maskOf rcols keyCol keys row₀ = true
        · rw [if_pos hm]
          exact cellC_setCellC_ne _ _ _ _ _ hcs
        · rw [if_neg hm]
      simp only [mergeStep] at hstep
      by_cases hms : (adf.rows.filter (fun a =>
          cellC adf.cols a keyCol == cellC df.cols r keyCol)).isEmpty
      · rw [if_pos hms] at hstep
        rcases List.mem_singleton.mp hstep with rfl
        show cellC rcols row' c = some v
        rw [hcell0]
        show cellC rcols (rcols.map (fun c =>
          if c ∈ df.cols then cellC df.cols r c else none)) c = some v
        rw [cellC_map, if_pos hcr, if_pos hc]
        exact hv
      · rw [if_neg hms] at hstep
        rcases List.mem_map.mp hstep with ⟨a, hams, hrow0⟩
        show cellC rcols row' c = some v
        rw [hcell0, ← hrow0]
        show cellC rcols (rcols.map (fun c =>
          if c ∈ df.cols then
            if c ∈ adf.cols ∧ c ≠ keyCol then
              (cellC df.cols r c).orElse (fun _ => cellC adf.cols a c)
            else cellC df.cols r c
          else cellC adf.cols a c)) c = some v
        rw [cellC_map, if_pos hcr, if_pos hc]
        by_cases hca : c ∈ adf.cols ∧ c ≠ keyCol
        · rw [if_pos hca, hv]
          rfl
        · rw [if_neg hca]
          exact hv

/-- C2 (amended): in the organization merge, every non-null file value
wins for every shared column other than the source tag — funding amounts
included; the enrichment value is used only where the file value is null,
so file 100 with enrichment 500 merges to 100 (and file 500 with
enrichment 100 to 500); no maximum is taken. -/
theorem C2_merge_funding_file_wins (df : DF) (api : ApiData)
    (row' : List (Option Val))
    (hmem : row' ∈ (merge_api_org_data df api).rows) :
    ∃ r ∈ df.rows, ∀ c, c ∈ df.cols → c ≠ "source" →
      ∀ v : Val, cellC df.cols r c = some v →
        cellC (merge_api_org_data df api).cols row' c = some v :=
  mergeApiData_file_wins "domain" orgBaseRow ORGANIZATION_FIELD_MAPPINGS
    ["latest_funding_round_date"] df api orgBaseRow_has_source row' hmem

/-- C2 witness: the amended statement applied to the concrete
file-100/enrichment-500 table. -/
theorem C2_merge_funding_file_wins_witness :
    ∃ r ∈ dfC2cx.rows, ∀ c, c ∈ dfC2cx.cols → c ≠ "source" →
      ∀ v : Val, cellC dfC2cx.cols r c = some v →
        cellC (merge_api_org_data dfC2cx apiC2cx).cols
          ((merge_api_org_data dfC2cx apiC2cx).rows.getD 0 []) c = some v :=
  C2_merge_funding_file_wins dfC2cx apiC2cx
    ((merge_api_org_data dfC2cx apiC2cx).rows.getD 0 []) (by decide)

theorem mem_dedupFirstGo {α : Type} [DecidableEq α] (seen : List α) (l : List α)
    (x : α) : x ∈ dedupFirstGo seen l ↔ x ∈ l ∧ x ∉ seen := by
  induction l generalizing seen with
  | nil => simp [dedupFirstGo]
  | cons y ys ih =>
    unfold dedupFirstGo
    by_cases hy : y ∈ seen
    · rw [if_pos hy, ih]
      constructor
      · rintro ⟨hx, hs⟩
        exact ⟨List.mem_cons_of_mem _ hx, hs⟩
      · rintro ⟨hx, hs⟩
        rcases List.mem_cons.mp hx with rfl | hx
        · exact absurd hy hs
        · exact ⟨hx, hs⟩
    · rw [if_neg hy]
      constructor
      · intro hx
        rcases List.mem_cons.mp hx with rfl | hx
        · exact ⟨List.mem_cons_self _ _, hy⟩
        · rcases (ih _).mp hx with ⟨h1, h2⟩
          exact ⟨List.mem_cons_of_mem _ h1,
            fun hs => h2 (List.mem_append_left _ hs)⟩
      · rintro ⟨hx, hs⟩
        rcases List.mem_cons.mp hx with rfl | hx
        · exact List.mem_cons_self _ _
        · by_cases hxy : x = y
          · subst hxy; exact List.mem_cons_self _ _
          · refine List.mem_cons_of_mem _ ((ih _).mpr ⟨hx, ?_⟩)
            intro hsx
            rcases List.mem_append.mp hsx with h | h
            · exact hs h
            · exact hxy (List.mem_singleton.mp h)

theorem mem_dedupFirst {α : Type} [DecidableEq α] (l : List α) (x : α) :
    x ∈ dedupFirst l ↔ x ∈ l := by
  unfold dedupFirst
  rw [mem_dedupFirstGo]
  simp

theorem nodup_dedupFirstGo {α : Type} [DecidableEq α] (seen : List α) (l : List α) :
    (dedupFirstGo seen l).Nodup := by
  induction l generalizing seen with
  | nil => exact List.nodup_nil
  | cons y ys ih =>
    unfold dedupFirstGo
    by_cases hy : y ∈ seen
    · rw [if_pos hy]; exact ih _
    · rw [if_neg hy]
      refine List.nodup_cons.mpr ⟨?_, ih _⟩
      intro hmem
      exact ((mem_dedupFirstGo _ _ _).mp hmem).2 (List.mem_append_right _
        (List.mem_singleton.mpr rfl))

theorem nodup_dedupFirst {α : Type} [DecidableEq α] (l : List α) :
    (dedupFirst l).Nodup := nodup_dedupFirstGo [] l

theorem lookup_append {α β : Type} [DecidableEq α] (l₁ l₂ : List (α × β)) (u : α) :
    (l₁ ++ l₂).lookup u
      = match l₁.lookup u with
        | some v => some v
        | none => l₂.lookup u := by
  induction l₁ with
  | nil => simp [List.lookup]
  | cons x xs ih =>
    simp only [List.cons_append, List.lookup]
    cases hbe : u == x.1 with
    | false => simpa using ih
    | true => rfl

theorem lookup_eq_none_of_not_mem {α β : Type} [DecidableEq α]
    {l : List (α × β)} {u : α} (h : u ∉ l.map (fun p => p.1)) :
    l.lookup u = none := by
  induction l with
  | nil => rfl
  | cons x xs ih =>
    have hx : u ≠ x.1 := fun he => h (by simp [he])
    simp only [List.lookup, beq_eq_false_iff_ne.mpr hx]
    exact ih (fun hm => h (List.mem_cons_of_mem _ hm))

/-- With duplicate-free keys, looking up the last binding (Python dict
overwrite order) agrees with looking up the first. -/
theorem lookup_reverse_of_nodup {α β : Type} [DecidableEq α]
    {l : List (α × β)} (hnd : (l.map (fun p => p.1)).Nodup) (u : α) :
    l.reverse.lookup u = l.lookup u := by
  induction l with
  | nil => rfl
  | cons x xs ih =>
    rw [List.map_cons] at hnd
    rcases List.nodup_cons.mp hnd with ⟨hx, hxs⟩
    rw [List.reverse_cons, lookup_append]
    by_cases hu : u = x.1
    · have hnone : xs.reverse.lookup u = none :=
        lookup_eq_none_of_not_mem (by rw [hu]; simpa using hx)
      rw [hnone]
      simp [List.lookup, hu]
    · rw [ih hxs]
      have hbe : (u == x.1) = false := beq_eq_false_iff_ne.mpr hu
      simp only [List.lookup, hbe]
      cases h : xs.lookup u <;> rfl

theorem filterMap_sum_eq_map_getD {α : Type} (l : List α) (f : α → Option Int) :
    (l.filterMap f).sum = (l.map (fun o => (f o).getD 0)).sum := by
  induction l with
  | nil => rfl
  | cons x xs ih =>
    match hf : f x with
    | some v => simp [List.filterMap_cons, hf, ih]
    | none => simp [List.filterMap_cons, hf, ih]

theorem length_filter_eq_sum_ind {α : Type} (l : List α) (p : α → Bool) :
    (l.filter p).length = (l.map (fun x => if p x then (1 : Nat) else 0)).sum := by
  induction l with
  | nil => rfl
  | cons x xs ih =>
    by_cases hp : p x <;> simp [List.filter_cons, hp, ih, Nat.add_comm]

theorem sum_ite_single {α M : Type} [DecidableEq α] [AddCommMonoid M]
    (S : List α) (u : α) (x : M) :
    S.Nodup → ((S.map (fun v => if v = u then x else 0)).sum
      = if u ∈ S then x else 0) := by
  induction S with
  | nil => intro _; simp
  | cons y ys ih =>
    intro hS
    rcases List.nodup_cons.mp hS with ⟨hy, hys⟩
    by_cases hyu : y = u
    · subst hyu
      simp only [List.map_cons, List.sum_cons, if_pos rfl, List.mem_cons, true_or, if_true]
      rw [ih hys, if_neg hy, add_zero]
    · simp only [List.map_cons, List.sum_cons, if_neg hyu]
      rw [ih hys]
      by_cases hu : u ∈ ys
      · rw [if_pos hu, if_pos (List.mem_cons_of_mem _ hu), zero_add]
      · rw [if_neg hu, if_neg (fun h => by
          rcases List.mem_cons.mp h with h | h
          · exact hyu h.symm
          · exact hu h), zero_add]

theorem keepIncremental_eq_specRetain {stored : List (String × Option Int)}
    (hnd : (stored.map (fun p => p.1)).Nodup) (cols : List String)
    (r : List (Option Val)) :
    keepIncremental stored cols r = specRetain stored cols r := by
  unfold keepIncremental specRetain lastProcessedLookup
  cases hc : cellC cols r "uuid" with
  | none => rfl
  | some v =>
    cases v with
    | str u => simp only [lookup_reverse_of_nodup hnd]
    | int n => rfl
    | date d => rfl
    | vbool b => rfl
    | vlist l => rfl

/-- C5: in incremental mode the extract step keeps exactly the rows the
specification describes — uuid absent from the persisted set, or present
with a null stored last_processed_at, or present with a strictly newer
updated_at; with an empty persisted set the full table is returned; and a
row whose updated_at is not strictly newer than its stored stamp is
excluded. Stated for a persisted set with duplicate-free uuids (the
uuid is the table's primary key). -/
theorem C5_incremental_extract (stored : List (String × Option Int)) (df : DF)
    (hnd : (stored.map (fun p => p.1)).Nodup) :
    (stored = [] → extract_csv_data true stored df = extract_csv_data false stored df)
    ∧ (stored ≠ [] →
        extract_csv_data true stored df
          = ⟨(extract_csv_data false stored df).cols,
             (extract_csv_data false stored df).rows.filter
               (specRetain stored (extract_csv_data false stored df).cols)⟩)
    ∧ (∀ r u t t2, stored ≠ [] →
        cellC (extract_csv_data false stored df).cols r "uuid" = some (.str u) →
        stored.lookup u = some (some t) →
        coerceDate (cellC (extract_csv_data false stored df).cols r "updated_at")
          = some (.date t2) →
        t2 ≤ t → r ∉ (extract_csv_data true stored df).rows) := by
  have hfull : extract_csv_data false stored df = prepare_csv_df df := rfl
  refine ⟨?_, ?_, ?_⟩
  · intro he
    subst he
    rfl
  · intro hne
    have hie : stored.isEmpty = false := by
      cases stored with
      | nil => exact absurd rfl hne
      | cons x xs => rfl
    unfold extract_csv_data extract_incremental_filter
    rw [if_pos rfl, hie]
    simp only [Bool.false_eq_true, if_false]
    refine congrArg (DF.mk (prepare_csv_df df).cols) ?_
    exact List.filter_congr (fun r _ => keepIncremental_eq_specRetain hnd _ r)
  · intro r u t t2 hne hu hl hd hle hmem
    have hie : stored.isEmpty = false := by
      cases stored with
      | nil => exact absurd rfl hne
      | cons x xs => rfl
    unfold extract_csv_data extract_incremental_filter at hmem
    rw [if_pos rfl, hie] at hmem
    simp only [Bool.false_eq_true, if_false] at hmem
    have hkeep := (List.mem_filter.mp hmem).2
    rw [keepIncremental_eq_specRetain hnd] at hkeep
    unfold specRetain at hkeep
    rw [hfull] at hu hd
    simp only [hu] at hkeep
    simp only [hl] at hkeep
    simp only [hd] at hkeep
    simp only [decide_eq_true_eq] at hkeep
    exact absurd hkeep (Int.not_lt.mpr hle)

/-- C5 witness: the incremental characterization applied at concrete
inputs; the stale x row (updated_at 4 against stored 5) is excluded. -/
theorem C5_incremental_extract_witness :
    (extract_csv_data true storedC5w dfC5w
      = ⟨(extract_csv_data false storedC5w dfC5w).cols,
         (extract_csv_data false storedC5w dfC5w).rows.filter
           (specRetain storedC5w (extract_csv_data false storedC5w dfC5w).cols)⟩)
    ∧ [some (.str "x"), some (.date 4), some (.str "csv"), none]
        ∉ (extract_csv_data true storedC5w dfC5w).rows :=
  ⟨(C5_incremental_extract storedC5w dfC5w (by decide)).2.1 (by decide),
   (C5_incremental_extract storedC5w dfC5w (by decide)).2.2
     [some (.str "x"), some (.date 4), some (.str "csv"), none] "x" 5 4
     (by decide) (by decide) (by decide) (by decide) (by decide)⟩

theorem dropDupJobsGo_filter_of_mem (k : Option String × Option String × Option String
    × Option Int × Option Int) (seen : List _) (l : List JobRow) (h : k ∈ seen) :
    (dropDupJobsGo seen l).filter (fun j => jobKey j == k) = [] := by
  induction l generalizing seen with
  | nil => rfl
  | cons j js ih =>
    unfold dropDupJobsGo
    by_cases hj : jobKey j ∈ seen
    · rw [if_pos hj]
      exact ih seen h
    · rw [if_neg hj]
      have hne : jobKey j ≠ k := fun he => hj (he ▸ h)
      rw [List.filter_cons]
      simp only [beq_eq_false_iff_ne.mpr hne, Bool.false_eq_true, if_false]
      exact ih _ (List.mem_append_left _ h)

theorem dropDupJobsGo_filter_of_not_mem (k : Option String × Option String
    × Option String × Option Int × Option Int) (seen : List _) (l : List JobRow)
    (h : k ∉ seen) :
    (dropDupJobsGo seen l).filter (fun j => jobKey j == k)
      = (l.filter (fun j => jobKey j == k)).take 1 := by
  induction l generalizing seen with
  | nil => rfl
  | cons j js ih =>
    unfold dropDupJobsGo
    by_cases hj : jobKey j ∈ seen
    · rw [if_pos hj]
      have hne : jobKey j ≠ k := fun he => h (he ▸ hj)
      rw [List.filter_cons]
      simp only [beq_eq_false_iff_ne.mpr hne, Bool.false_eq_true, if_false]
      exact ih seen h
    · rw [if_neg hj]
      by_cases hk : jobKey j = k
      · subst hk
        rw [List.filter_cons, List.filter_cons]
        simp only [beq_self_eq_true, if_true]
        rw [dropDupJobsGo_filter_of_mem _ _ _
          (List.mem_append_right _ (List.mem_singleton.mpr rfl))]
        rfl
      · rw [List.filter_cons, List.filter_cons]
        simp only [beq_eq_false_iff_ne.mpr hk, Bool.false_eq_true, if_false]
        refine ih _ (fun hm => ?_)
        rcases List.mem_append.mp hm with hm | hm
        · exact h hm
        · exact hk (List.mem_singleton.mp hm).symm

theorem take_one_append {α : Type} {xs : List α} (ys : List α) (h : xs ≠ []) :
    (xs ++ ys).take 1 = xs.take 1 := by
  cases xs with
  | nil => exact absurd rfl h
  | cons x xs => rfl

/-- C6: when at least one synthetic row is produced and a file-sourced job
row shares a composite key with any other row, deduplication keeps exactly
the first file-sourced row with that key: the output rows with that key
are the one-element prefix of the file rows with that key (in particular
the synthetic duplicate is gone and the survivor keeps the file row's
source tag, csv for rows the extract stage tagged). -/
theorem C6_dedup_prefers_file_row (jobs : List JobRow) (people : List PersonRow)
    (hist : List (String × List ApiJob)) (ts : Int)
    (hne : newJobRowsOf people hist ts ≠ [])
    (k : Option String × Option String × Option String × Option Int × Option Int)
    (hex : ∃ jf ∈ jobs.filter (fun j =>
      (people.map (fun p => p.uuid)).contains j.person_uuid), jobKey jf = k) :
    (enrich_jobs_with_api_data jobs people hist ts).filter (fun j => jobKey j == k)
      = ((jobs.filter (fun j =>
          (people.map (fun p => p.uuid)).contains j.person_uuid)).filter
            (fun j => jobKey j == k)).take 1
    ∧ ((∀ j ∈ jobs, j.source = some "csv") →
        ∀ j' ∈ (enrich_jobs_with_api_data jobs people hist ts).filter
          (fun j => jobKey j == k), j'.source = some "csv") := by
  have hhist : hist ≠ [] := by
    intro he
    subst he
    exact hne rfl
  have hhie : hist.isEmpty = false := by
    cases hist with
    | nil => exact absurd rfl hhist
    | cons x xs => rfl
  have hnie : (newJobRowsOf people hist ts).isEmpty = false := by
    cases hn : newJobRowsOf people hist ts with
    | nil => exact absurd hn hne
    | cons x xs => rfl
  have hred : enrich_jobs_with_api_data jobs people hist ts
      = drop_duplicates_jobs
          ((jobs.filter (fun j =>
            (people.map (fun p => p.uuid)).contains j.person_uuid))
           ++ newJobRowsOf people hist ts) := by
    unfold enrich_jobs_with_api_data
    rw [hhie]
    simp only [Bool.false_eq_true, if_false]
    rw [hnie]
    simp only [Bool.false_eq_true, if_false]
  have hfne : (jobs.filter (fun j =>
      (people.map (fun p => p.uuid)).contains j.person_uuid)).filter
        (fun j => jobKey j == k) ≠ [] := by
    rcases hex with ⟨jf, hjf, hk⟩
    intro hnil
    have : jf ∈ ([] : List JobRow) := by
      rw [← hnil]
      exact List.mem_filter.mpr ⟨hjf, by simp [hk]⟩
    simp at this
  have hmain : (enrich_jobs_with_api_data jobs people hist ts).filter
      (fun j => jobKey j == k)
      = ((jobs.filter (fun j =>
          (people.map (fun p => p.uuid)).contains j.person_uuid)).filter
            (fun j => jobKey j == k)).take 1 := by
    rw [hred]
    unfold drop_duplicates_jobs
    rw [dropDupJobsGo_filter_of_not_mem _ _ _ (by simp)]
    rw [List.filter_append]
    exact take_one_append _ hfne
  refine ⟨hmain, fun hsrc j' hj' => ?_⟩
  rw [hmain] at hj'
  have hj'' := List.mem_of_mem_take hj'
  have := (List.mem_filter.mp (List.mem_filter.mp hj'').1).1
  exact hsrc j' this

/-- C6 witness: the deduplication preference applied at concrete inputs. -/
theorem C6_dedup_prefers_file_row_witness :
    (enrich_jobs_with_api_data jobsC6w peopleC6w histC6w 7).filter
        (fun j => jobKey j == keyC6w)
      = ((jobsC6w.filter (fun j =>
          (peopleC6w.map (fun p => p.uuid)).contains j.person_uuid)).filter
            (fun j => jobKey j == keyC6w)).take 1
    ∧ ((∀ j ∈ jobsC6w, j.source = some "csv") →
        ∀ j' ∈ (enrich_jobs_with_api_data jobsC6w peopleC6w histC6w 7).filter
          (fun j => jobKey j == keyC6w), j'.source = some "csv") :=
  C6_dedup_prefers_file_row jobsC6w peopleC6w histC6w 7 (by decide) keyC6w (by decide)

theorem map_filter_eq_filterMap {α β : Type} (f : α → β) (p : β → Bool) (l : List α) :
    (l.map f).filter p = l.filterMap (fun x => if p (f x) then some (f x) else none) := by
  induction l with
  | nil => rfl
  | cons x xs ih =>
    by_cases hp : p (f x) <;>
      simp [List.filter_cons, List.filterMap_cons, hp, ih]

theorem fixJobOrgRef_none {valid_org_uuids : List String} {j : JobRow}
    (h : j.org_uuid = none) : fixJobOrgRef valid_org_uuids j = j := by
  unfold fixJobOrgRef
  rw [h]

theorem fixJobOrgRef_some {j : JobRow} {u : String} (valid_org_uuids : List String)
    (h : j.org_uuid = some u) :
    fixJobOrgRef valid_org_uuids j
      = if valid_org_uuids.contains u then j else { j with org_uuid := none } := by
  unfold fixJobOrgRef
  rw [h]

theorem fixJobOrgRef_person (valid_org_uuids : List String) (j : JobRow) :
    (fixJobOrgRef valid_org_uuids j).person_uuid = j.person_uuid := by
  cases ho : j.org_uuid with
  | none => rw [fixJobOrgRef_none ho]
  | some u =>
    rw [fixJobOrgRef_some valid_org_uuids ho]
    by_cases h : valid_org_uuids.contains u
    · rw [if_pos h]
    · rw [if_neg h]

/-- C1: after the repair pass every remaining job's person_uuid is a known
person uuid (never null) and its org_uuid is null or a known organization
uuid; and the jobs table equals the file of the input jobs where each job
with a valid person reference survives with its organization reference
repaired, and each job with an invalid person reference is dropped. -/
theorem C1_fk_repair (orgs people : DF) (jobs : List JobRow) :
    (∀ j ∈ (validate_foreign_keys orgs people jobs).2.2,
      (∃ u, j.person_uuid = some u ∧ u ∈ colStrsDropNa people "uuid")
      ∧ (j.org_uuid = none ∨ ∃ o, j.org_uuid = some o ∧ o ∈ colStrsDropNa orgs "uuid"))
    ∧ (validate_foreign_keys orgs people jobs).2.2
        = jobs.filterMap (fun j =>
            if jobPersonValid (colStrsDropNa people "uuid") j
            then some (fixJobOrgRef (colStrsDropNa orgs "uuid") j)
            else none) := by
  constructor
  · intro j hj
    have hj' : j ∈ (jobs.map (fixJobOrgRef (colStrsDropNa orgs "uuid"))).filter
        (jobPersonValid (colStrsDropNa people "uuid")) := hj
    rcases List.mem_filter.mp hj' with ⟨hmap, hvalid⟩
    constructor
    · unfold jobPersonValid at hvalid
      match hpu : j.person_uuid with
      | some u =>
        rw [hpu] at hvalid
        exact ⟨u, rfl, List.mem_of_elem_eq_true hvalid⟩
      | none => rw [hpu] at hvalid; cases hvalid
    · rcases List.mem_map.mp hmap with ⟨j₀, _, hfix⟩
      cases ho : j₀.org_uuid with
      | none =>
        rw [fixJobOrgRef_none ho] at hfix
        subst hfix
        exact Or.inl ho
      | some u =>
        rw [fixJobOrgRef_some _ ho] at hfix
        by_cases hc : (colStrsDropNa orgs "uuid").contains u
        · rw [if_pos hc] at hfix
          subst hfix
          exact Or.inr ⟨u, ho, List.mem_of_elem_eq_true hc⟩
        · rw [if_neg hc] at hfix
          subst hfix
          exact Or.inl rfl
  · show (jobs.map (fixJobOrgRef (colStrsDropNa orgs "uuid"))).filter
        (jobPersonValid (colStrsDropNa people "uuid")) = _
    rw [map_filter_eq_filterMap]
    refine List.filterMap_congr (fun j _ => ?_)
    have hp : jobPersonValid (colStrsDropNa people "uuid")
        (fixJobOrgRef (colStrsDropNa orgs "uuid") j)
        = jobPersonValid (colStrsDropNa people "uuid") j := by
      unfold jobPersonValid
      rw [fixJobOrgRef_person]
    rw [hp]

/-- C1 witness: the repair invariant holds at the repaired dangling-org
job, and the table equation holds at the concrete inputs. -/
theorem C1_fk_repair_witness :
    ((∃ u, jobC1wFixed.person_uuid = some u ∧ u ∈ colStrsDropNa peopleC1w "uuid")
      ∧ (jobC1wFixed.org_uuid = none
        ∨ ∃ o, jobC1wFixed.org_uuid = some o ∧ o ∈ colStrsDropNa orgsC1w "uuid"))
    ∧ (validate_foreign_keys orgsC1w peopleC1w jobsC1w).2.2
        = jobsC1w.filterMap (fun j =>
            if jobPersonValid (colStrsDropNa peopleC1w "uuid") j
            then some (fixJobOrgRef (colStrsDropNa orgsC1w "uuid") j)
            else none) :=
  ⟨(C1_fk_repair orgsC1w peopleC1w jobsC1w).1 jobC1wFixed (by decide),
   (C1_fk_repair orgsC1w peopleC1w jobsC1w).2⟩

theorem findOrg_eq_none_of_not_mem {orgs : List OrgRow} {u : String}
    (h : u ∉ orgUuids orgs) : findOrg orgs u = none := by
  induction orgs with
  | nil => rfl
  | cons o os ih =>
    have ho : (o.uuid == some u) = false := by
      rw [beq_eq_false_iff_ne]
      intro he
      exact h (List.mem_filterMap.mpr ⟨o, List.mem_cons_self _ _, he⟩)
    unfold findOrg at ih ⊢
    rw [List.find?_cons_of_neg _ (by simp [ho]), ih]
    intro hm
    exact h (by
      rcases List.mem_filterMap.mp hm with ⟨o', ho', he'⟩
      exact List.mem_filterMap.mpr ⟨o', List.mem_cons_of_mem _ ho', he'⟩)

theorem sum_map_zero_fn {α M : Type} [AddCommMonoid M] (S : List α) :
    (S.map (fun _ => (0 : M))).sum = 0 := by
  induction S with
  | nil => rfl
  | cons x xs ih => simp [ih]

theorem sum_map_add_fn {α M : Type} [AddCommMonoid M] (S : List α) (f g : α → M) :
    (S.map (fun v => f v + g v)).sum = (S.map f).sum + (S.map g).sum := by
  induction S with
  | nil => simp
  | cons x xs ih =>
    simp only [List.map_cons, List.sum_cons, ih]
    exact add_add_add_comm _ _ _ _

/-- Summing a per-organization quantity over the organization rows whose
uuid lies in a duplicate-free uuid list equals summing the quantity of the
found organization over the uuid list, when the organization uuids are
themselves duplicate-free. -/
theorem sum_filter_mem_eq_sum_find {M : Type} [AddCommMonoid M] (g : OrgRow → M) :
    ∀ (orgs : List OrgRow) (S : List String), (orgUuids orgs).Nodup → S.Nodup →
    ((orgs.filter (fun o =>
        match o.uuid with
        | some u => S.contains u
        | none => false)).map g).sum
      = (S.map (fun v =>
          match findOrg orgs v with
          | some o => g o
          | none => 0)).sum := by
  intro orgs
  induction orgs with
  | nil =>
    intro S _ _
    have : (S.map (fun v =>
        match findOrg ([] : List OrgRow) v with
        | some o => g o
        | none => (0 : M))).sum = (S.map (fun _ => (0 : M))).sum := by
      refine congrArg List.sum (List.map_congr_left (fun v _ => rfl))
    rw [this, sum_map_zero_fn]
    rfl
  | cons o os ih =>
    intro S hnd hS
    cases ho : o.uuid with
    | none =>
      have hnd' : (orgUuids os).Nodup := by
        unfold orgUuids at hnd ⊢
        rwa [List.filterMap_cons, ho] at hnd
      have hfind : ∀ v, findOrg (o :: os) v = findOrg os v := by
        intro v
        unfold findOrg
        rw [List.find?_cons_of_neg _ (by simp [ho])]
      rw [List.filter_cons]
      simp only [ho, Bool.false_eq_true, if_false]
      rw [ih S hnd' hS]
      refine congrArg List.sum (List.map_congr_left (fun v _ => by rw [hfind v]))
    | some u₀ =>
      have hnd0 : u₀ ∉ orgUuids os ∧ (orgUuids os).Nodup := by
        unfold orgUuids at hnd ⊢
        rw [List.filterMap_cons, ho] at hnd
        exact List.nodup_cons.mp hnd
      have hfind : ∀ v, findOrg (o :: os) v
          = if v = u₀ then some o else findOrg os v := by
        intro v
        unfold findOrg
        by_cases hv : v = u₀
        · subst hv
          rw [if_pos rfl, List.find?_cons_of_pos _ (by simp [ho])]
        · rw [if_neg hv, List.find?_cons_of_neg _ (by
            simp only [ho, beq_iff_eq, Option.some.injEq]
            exact fun he => hv he.symm)]
      rw [List.filter_cons]
      by_cases hmem : u₀ ∈ S
      · simp only [ho, contains_eq_true_of_mem hmem, if_true, List.map_cons,
          List.sum_cons]
        rw [ih S hnd0.2 hS]
        have hpt : (S.map (fun v =>
            match findOrg (o :: os) v with
            | some o' => g o'
            | none => (0 : M))).sum
            = (S.map (fun v =>
                (match findOrg os v with
                 | some o' => g o'
                 | none => (0 : M)) + (if v = u₀ then g o else 0))).sum := by
          refine congrArg List.sum (List.map_congr_left (fun v _ => ?_))
          rw [hfind v]
          by_cases hv : v = u₀
          · subst hv
            rw [if_pos rfl, if_pos rfl,
              findOrg_eq_none_of_not_mem hnd0.1, zero_add]
          · rw [if_neg hv, if_neg hv, add_zero]
        rw [hpt, sum_map_add_fn, sum_ite_single S u₀ (g o) hS, if_pos hmem,
          add_comm]
      · simp only [ho, contains_eq_false_of_not_mem hmem, Bool.false_eq_true,
          if_false]
        rw [ih S hnd0.2 hS]
        refine congrArg List.sum (List.map_congr_left (fun v hv => ?_))
        rw [hfind v, if_neg (fun he => hmem (by rw [← he]; exact hv))]

theorem mem_founderRows {fj : List JobRow} {u : String} {j : JobRow} :
    j ∈ founderRowsFor fj (some u) ↔ j ∈ fj ∧ j.person_uuid = some u := by
  unfold founderRowsFor
  rw [List.mem_filter]
  constructor
  · rintro ⟨h1, h2⟩
    exact ⟨h1, beq_iff_eq.mp h2⟩
  · rintro ⟨h1, h2⟩
    exact ⟨h1, beq_iff_eq.mpr h2⟩

theorem mem_foundedOrgUuids {fj : List JobRow} {pu : Option String} {v : String} :
    v ∈ foundedOrgUuidsFor fj pu ↔ ∃ j ∈ founderRowsFor fj pu, j.org_uuid = some v := by
  unfold foundedOrgUuidsFor
  rw [mem_dedupFirst, List.mem_filterMap]

theorem resolved_eq_founded {fj : List JobRow} {orgs : List OrgRow}
    (hres : ∀ j ∈ fj, ∀ u, j.org_uuid = some u → u ∈ orgUuids orgs) (u : String) :
    resolvedOrgUuidsFor fj orgs (some u) = foundedOrgUuidsFor fj (some u) := by
  unfold resolvedOrgUuidsFor
  refine List.filter_eq_self.mpr (fun v hv => ?_)
  have hvorg : v ∈ orgUuids orgs := by
    rcases mem_foundedOrgUuids.mp hv with ⟨j, hj, ho⟩
    exact hres j (mem_founderRows.mp hj).1 v ho
  rcases List.mem_filterMap.mp hvorg with ⟨o, ho, he⟩
  exact List.any_eq_true.mpr ⟨o, ho, by simp [he]⟩

theorem founderFeatureFor_eq_some {fj : List JobRow} {orgs : List OrgRow}
    {pu : Option String} {f : FeatureRow}
    (h : founderFeatureFor fj orgs pu = some f) :
    ¬(foundedOrgsFor fj orgs pu).isEmpty = true
    ∧ f.person_uuid = pu
    ∧ f.total_companies_founded = (foundedOrgUuidsFor fj pu).length
    ∧ f.total_funding_raised
        = ((foundedOrgsFor fj orgs pu).filterMap (fun o => o.total_funding_usd)).sum
    ∧ f.num_aquisitions
        = ((foundedOrgsFor fj orgs pu).filter
            (fun o => o.status == some "acquired")).length := by
  unfold founderFeatureFor at h
  by_cases he : (foundedOrgsFor fj orgs pu).isEmpty
  · rw [if_pos he] at h
    cases h
  · rw [if_neg he] at h
    have hf := Option.some.inj h
    subst hf
    exact ⟨he, rfl, rfl, rfl, rfl⟩

theorem founderFeatureFor_some_of_ne {fj : List JobRow} {orgs : List OrgRow}
    {pu : Option String} (h : ¬(foundedOrgsFor fj orgs pu).isEmpty = true) :
    ∃ f, founderFeatureFor fj orgs pu = some f ∧ f.person_uuid = pu := by
  unfold founderFeatureFor
  rw [if_neg h]
  exact ⟨_, rfl, rfl⟩

/-- C8: when founder jobs reference only resolvable organizations (as the
jobs reaching this code do, having passed the foreign-key repair) and
organization uuids are unique, every derived feature row counts the
distinct resolved organizations, sums their funding, and counts their
acquisitions; a person with at least one resolving founder job gets a
row; a person none of whose founder jobs resolves gets none. -/
theorem C8_founder_features (founder_jobs : List JobRow) (orgs : List OrgRow)
    (people : List PersonRow)
    (hresb : founder_jobs.all (fun j =>
      match j.org_uuid with
      | some u => (orgUuids orgs).contains u
      | none => true) = true)
    (hnd : (orgUuids orgs).Nodup) :
    (∀ f ∈ transform_founder_data founder_jobs orgs people, ∀ u,
        f.person_uuid = some u →
        f.total_companies_founded
            = (resolvedOrgUuidsFor founder_jobs orgs (some u)).length
        ∧ f.total_funding_raised
            = ((resolvedOrgUuidsFor founder_jobs orgs (some u)).map (fun v =>
                ((findOrg orgs v).bind (fun o => o.total_funding_usd)).getD 0)).sum
        ∧ f.num_aquisitions
            = ((resolvedOrgUuidsFor founder_jobs orgs (some u)).filter (fun v =>
                ((findOrg orgs v).bind (fun o => o.status)) == some "acquired")).length)
    ∧ (∀ u, (∃ j ∈ founder_jobs, j.person_uuid = some u
          ∧ ∃ v, j.org_uuid = some v ∧ v ∈ orgUuids orgs) →
        ∃ f ∈ transform_founder_data founder_jobs orgs people, f.person_uuid = some u)
    ∧ (∀ u, (∀ j ∈ founder_jobs, j.person_uuid = some u →
          ∀ v, j.org_uuid = some v → v ∉ orgUuids orgs) →
        ¬ ∃ f ∈ transform_founder_data founder_jobs orgs people,
            f.person_uuid = some u) := by
  have hres : ∀ j ∈ founder_jobs, ∀ u, j.org_uuid = some u → u ∈ orgUuids orgs := by
    intro j hj u hu
    have hall := List.all_eq_true.mp hresb j hj
    rw [hu] at hall
    exact List.mem_of_elem_eq_true hall
  refine ⟨?_, ?_, ?_⟩
  · intro f hf u hu
    rcases List.mem_filterMap.mp hf with ⟨pr, _, hfeat⟩
    rcases founderFeatureFor_eq_some hfeat with ⟨hne, hpu, hcount, hfund, hacq⟩
    have hpr1 : pr.1 = some u := by rw [← hpu, hu]
    rw [hpr1] at hcount hfund hacq
    have hSnd : (foundedOrgUuidsFor founder_jobs (some u)).Nodup := nodup_dedupFirst _
    refine ⟨?_, ?_, ?_⟩
    · rw [hcount, resolved_eq_founded hres]
    · rw [hfund, resolved_eq_founded hres]
      unfold foundedOrgsFor
      rw [filterMap_sum_eq_map_getD,
        sum_filter_mem_eq_sum_find (fun o => (o.total_funding_usd).getD 0) orgs
          (foundedOrgUuidsFor founder_jobs (some u)) hnd hSnd]
      refine congrArg List.sum (List.map_congr_left (fun v _ => ?_))
      cases hfo : findOrg orgs v with
      | none => simp [hfo]
      | some o => simp [hfo]
    · rw [hacq, resolved_eq_founded hres]
      unfold foundedOrgsFor
      rw [length_filter_eq_sum_ind, length_filter_eq_sum_ind,
        sum_filter_mem_eq_sum_find (fun o => if o.status == some "acquired"
          then (1 : Nat) else 0) orgs
          (foundedOrgUuidsFor founder_jobs (some u)) hnd hSnd]
      refine congrArg List.sum (List.map_congr_left (fun v _ => ?_))
      cases hfo : findOrg orgs v with
      | none => simp [hfo]
      | some o => simp [hfo]
  · intro u hex
    rcases hex with ⟨j, hj, hju, v, hjv, hvres⟩
    have hvfound : v ∈ foundedOrgUuidsFor founder_jobs (some u) :=
      mem_foundedOrgUuids.mpr ⟨j, mem_founderRows.mpr ⟨hj, hju⟩, hjv⟩
    have hne : ¬(foundedOrgsFor founder_jobs orgs (some u)).isEmpty = true := by
      rcases List.mem_filterMap.mp hvres with ⟨o, ho, he⟩
      have : o ∈ foundedOrgsFor founder_jobs orgs (some u) := by
        refine List.mem_filter.mpr ⟨ho, ?_⟩
        rw [he]
        exact contains_eq_true_of_mem hvfound
      intro hie
      rw [List.isEmpty_iff.mp hie] at this
      simp at this
    rcases founderFeatureFor_some_of_ne hne with ⟨f, hf, hfp⟩
    refine ⟨f, List.mem_filterMap.mpr ⟨(some u, j.person_name), ?_, hf⟩, hfp⟩
    rw [mem_dedupFirst]
    exact List.mem_map.mpr ⟨j, hj, by rw [hju]⟩
  · intro u hnone hex
    rcases hex with ⟨f, hf, hfu⟩
    rcases List.mem_filterMap.mp hf with ⟨pr, _, hfeat⟩
    rcases founderFeatureFor_eq_some hfeat with ⟨hne, hpu, _, _, _⟩
    have hpr1 : pr.1 = some u := by rw [← hpu, hfu]
    rw [hpr1] at hne
    have hex2 : ∃ o, o ∈ foundedOrgsFor founder_jobs orgs (some u) := by
      rcases ho : foundedOrgsFor founder_jobs orgs (some u) with _ | ⟨o, os⟩
      · exact absurd (by rw [ho]; rfl) hne
      · exact ⟨o, ho ▸ List.mem_cons_self o os⟩
    rcases hex2 with ⟨o, ho⟩
    rcases List.mem_filter.mp ho with ⟨homem, hpred⟩
    match hou : o.uuid with
    | none => rw [hou] at hpred; cases hpred
    | some w =>
      rw [hou] at hpred
      have hwf : w ∈ foundedOrgUuidsFor founder_jobs (some u) :=
        List.mem_of_elem_eq_true hpred
      rcases mem_foundedOrgUuids.mp hwf with ⟨j', hj', hjw⟩
      rcases mem_founderRows.mp hj' with ⟨hj'mem, hj'u⟩
      exact hnone j' hj'mem hj'u w hjw
        (List.mem_filterMap.mpr ⟨o, homem, hou⟩)

/-- C8 witness: the characterization applied at the concrete example,
whose derived row carries total_companies_founded 2, total_funding_raised
3000000 and num_aquisitions 1. -/
theorem C8_founder_features_witness :
    (featC8w.total_companies_founded
        = (resolvedOrgUuidsFor jobsC8w orgsC8w (some "p1")).length
      ∧ featC8w.total_funding_raised
        = ((resolvedOrgUuidsFor jobsC8w orgsC8w (some "p1")).map (fun v =>
            ((findOrg orgsC8w v).bind (fun o => o.total_funding_usd)).getD 0)).sum
      ∧ featC8w.num_aquisitions
        = ((resolvedOrgUuidsFor jobsC8w orgsC8w (some "p1")).filter (fun v =>
            ((findOrg orgsC8w v).bind (fun o => o.status)) == some "acquired")).length)
    ∧ featC8w.total_companies_founded = 2
    ∧ featC8w.total_funding_raised = 3000000
    ∧ featC8w.num_aquisitions = 1 :=
  ⟨(C8_founder_features jobsC8w orgsC8w [] (by decide) (by decide)).1 featC8w
      (by decide) "p1" (by decide),
   by decide, by decide, by decide⟩

/-! Store-level lemmas. -/

theorem lookup_map_keyset {β : Type} (l : List (String × β)) (n : String) (t : β)
    (n' : String) (h : n' ≠ n) :
    (l.map (fun p => if p.1 = n then (n, t) else p)).lookup n' = l.lookup n' := by
  induction l with
  | nil => rfl
  | cons p ps ih =>
    obtain ⟨k, v⟩ := p
    simp only [List.map_cons]
    by_cases hk : k = n
    · subst hk
      rw [show (if (k, v).1 = k then (k, t) else (k, v)) = (k, t) from if_pos rfl]
      have hbe : (n' == k) = false := beq_eq_false_iff_ne.mpr h
      simp only [List.lookup, hbe, ih]
    · rw [show (if (k, v).1 = n then (n, t) else (k, v)) = (k, v) from if_neg hk]
      simp only [List.lookup]
      cases hbe : n' == k with
      | true => rfl
      | false => exact ih

theorem tabLookup_tabSet_ne (st : DBState) (n : String) (t : DBTable)
    (n' : String) (h : n' ≠ n) :
    tabLookup (tabSet st n t) n' = tabLookup st n' :=
  lookup_map_keyset st.tabs n t n' h

/-- The fold of insert-or-replace steps never changes the column list. -/
theorem foldl_insFF_cols (feats : List FeatureRow) (t : DBTable) :
    (feats.foldl insertOrReplaceFF t).cols = t.cols := by
  induction feats generalizing t with
  | nil => rfl
  | cons f fs ih => exact (ih (insertOrReplaceFF t f)).trans rfl

/-- A prior row whose person_uuid conflicts with none of the inserted
feature rows survives the whole fold. -/
theorem foldl_insFF_keeps {t : DBTable} {feats : List FeatureRow}
    {r : List (Option Val)} (hr : r ∈ t.rows)
    (hall : ∀ f ∈ feats,
      sqlEq (cellC t.cols r "person_uuid") (f.person_uuid.map Val.str) = false) :
    r ∈ (feats.foldl insertOrReplaceFF t).rows := by
  induction feats generalizing t with
  | nil => exact hr
  | cons f fs ih =>
    refine ih (t := insertOrReplaceFF t f) ?_ ?_
    · exact List.mem_append_left _ (List.mem_filter.mpr ⟨hr, by
        rw [hall f (List.mem_cons_self f fs)]; rfl⟩)
    · exact fun g hg => hall g (List.mem_cons_of_mem f hg)

/-- Every row after the fold is a surviving prior row or one of the newly
inserted feature rows. -/
theorem foldl_insFF_closure {feats : List FeatureRow} {t : DBTable}
    {r : List (Option Val)} (hr : r ∈ (feats.foldl insertOrReplaceFF t).rows) :
    r ∈ t.rows ∨ ∃ f ∈ feats, r = featureCells t.cols f := by
  induction feats generalizing t with
  | nil => exact Or.inl hr
  | cons f fs ih =>
    rcases ih (t := insertOrReplaceFF t f) hr with h | ⟨g, hg, he⟩
    · rcases List.mem_append.mp h with hf | hnew
      · exact Or.inl (List.mem_filter.mp hf).1
      · exact Or.inr ⟨f, List.mem_cons_self f fs, List.mem_singleton.mp hnew⟩
    · exact Or.inr ⟨g, List.mem_cons_of_mem f hg, he⟩

/-- A successful founder-feature load changes no table other than
founder_features. -/
theorem load_ff_lookup_ne {st st' : DBState} {feats : List FeatureRow}
    (h : load_founder_features st feats = .ok st')
    {n : String} (hn : n ≠ "founder_features") :
    tabLookup st' n = tabLookup st n := by
  unfold load_founder_features at h
  by_cases he : feats.isEmpty = true
  · rw [if_pos he] at h
    cases h
    rfl
  · rw [if_neg he] at h
    match ht : tabLookup st "founder_features" with
    | none => rw [ht] at h; cases h
    | some t =>
      rw [ht] at h
      cases h
      exact tabLookup_tabSet_ne st "founder_features" _ n hn

/-- A successful load step stored exactly the returned feature rows. -/
theorem loadStep_ok {st : DBState} {feats f : List FeatureRow} {st' : DBState}
    (h : loadStep st feats = .ok (f, st')) :
    load_founder_features st f = .ok st' := by
  unfold loadStep at h
  match hl : load_founder_features st feats with
  | .error e => rw [hl] at h; cases h
  | .ok st'' => rw [hl] at h; cases h; exact hl

/-- A successful founderBody run obtained its final store by loading
exactly the returned feature rows. -/
theorem founderBody_ok_load {st : DBState} {jobs? : Option (List JobRow)}
    {orgs? : Option (List OrgRow)} {people? : Option (List PersonRow)}
    {f : List FeatureRow} {st' : DBState}
    (h : founderBody st jobs? orgs? people? = .ok (f, st')) :
    load_founder_features st f = .ok st' := by
  rcases jobs? with _ | jobs
  · exact Except.noConfusion h
  · rcases orgs? with _ | orgs
    · simp only [founderBody] at h
      by_cases hc : (dedupFirst ((jobs.filter founderFlagged).map
          (fun j => (j.person_uuid, j.person_name)))).isEmpty = true
      · rw [if_pos hc] at h
        exact loadStep_ok h
      · rw [if_neg hc] at h
        exact Except.noConfusion h
    · exact loadStep_ok h

/-- C10: process_founder_features never raises: called without a
connection it returns None leaving the store untouched; any exception
raised inside its try block is caught into a None return with the store
untouched; and in every case each table other than founder_features — in
particular the already-committed organizations, people, and jobs tables —
is exactly as it was. -/
theorem C10_founder_never_raises (conn : Bool) (st : DBState)
    (jobs? : Option (List JobRow)) (orgs? : Option (List OrgRow))
    (people? : Option (List PersonRow)) :
    (conn = false →
      process_founder_features conn st jobs? orgs? people? = (none, st))
    ∧ (∀ e, founderBody st jobs? orgs? people? = .error e →
        process_founder_features true st jobs? orgs? people? = (none, st))
    ∧ (∀ n, n ≠ "founder_features" →
        tabLookup (process_founder_features conn st jobs? orgs? people?).2 n
          = tabLookup st n) := by
  refine ⟨?_, ?_, ?_⟩
  · intro h
    subst h
    rfl
  · intro e he
    show (match founderBody st jobs? orgs? people? with
          | .ok (f, st') => (some f, st')
          | .error _ => ((none : Option (List FeatureRow)), st)) = (none, st)
    rw [he]
  · intro n hn
    cases conn with
    | false => rfl
    | true =>
      show tabLookup (match founderBody st jobs? orgs? people? with
          | .ok (f, st') => (some f, st')
          | .error _ => ((none : Option (List FeatureRow)), st)).2 n
        = tabLookup st n
      match hb : founderBody st jobs? orgs? people? with
      | .error e => rfl
      | .ok (f, st') => exact load_ff_lookup_ne (founderBody_ok_load hb) hn

theorem C10_founder_never_raises_witness :
    process_founder_features false stC10w (some []) none none = (none, stC10w)
    ∧ process_founder_features true stC10w none (some []) none = (none, stC10w)
    ∧ tabLookup (process_founder_features true stC10w (some []) (some []) none).2
        "organizations" = tabLookup stC10w "organizations" :=
  ⟨(C10_founder_never_raises false stC10w (some []) none none).1 rfl,
   (C10_founder_never_raises true stC10w none (some []) none).2.1
     "TypeError: jobs_df is None" rfl,
   (C10_founder_never_raises true stC10w (some []) (some []) none).2.2
     "organizations" (by decide)⟩

/-- C4 counterexample: the founder_features table starts with a row for
person p1; the newly computed feature set mentions only p2; after
load_founder_features succeeds, the p1 row is still in the table — the
prior contents are not replaced wholesale. -/
theorem C4_counterexample :
    (load_founder_features stC4cx [featC4cx]).toOption = some stC4after
    ∧ ([featC4cx].all (fun f => !(f.person_uuid == some "p1"))) = true
    ∧ p1cellsC4 ∈ ((tabLookup stC4after "founder_features").getD ⟨[], []⟩).rows
    ∧ cellC ffCols p1cellsC4 "person_uuid" = some (.str "p1") := by decide

/-- C4 (amended): load_founder_features upserts row by row (INSERT OR
REPLACE on person_uuid): with a nonempty feature set and an existing
founder_features table it commits the fold of insert-or-replace steps; a
prior row whose person_uuid matches no new feature row survives; and
every row afterwards is either such a survivor or one of the newly
computed feature rows. -/
theorem C4_ff_upsert (st : DBState) (feats : List FeatureRow) (t : DBTable)
    (hne : feats ≠ []) (ht : tabLookup st "founder_features" = some t) :
    load_founder_features st feats
      = .ok (tabSet st "founder_features" (feats.foldl insertOrReplaceFF t))
    ∧ (∀ r ∈ t.rows,
        (∀ f ∈ feats,
          sqlEq (cellC t.cols r "person_uuid") (f.person_uuid.map Val.str)
            = false) →
        r ∈ (feats.foldl insertOrReplaceFF t).rows)
    ∧ (∀ r ∈ (feats.foldl insertOrReplaceFF t).rows,
        r ∈ t.rows ∨ ∃ f ∈ feats, r = featureCells t.cols f) := by
  refine ⟨?_, ?_, ?_⟩
  · cases feats with
    | nil => exact absurd rfl hne
    | cons f fs =>
      simp only [load_founder_features, List.isEmpty_cons, Bool.false_eq_true,
        if_false, ht]
  · intro r hr hall
    exact foldl_insFF_keeps hr hall
  · intro r hr
    exact foldl_insFF_closure hr

theorem C4_ff_upsert_witness :
    ([featC4w] ≠ ([] : List FeatureRow))
    ∧ tabLookup stC4w "founder_features" = some tC4w
    ∧ (load_founder_features stC4w [featC4w]
         = .ok (tabSet stC4w "founder_features"
             ([featC4w].foldl insertOrReplaceFF tC4w))
       ∧ (∀ r ∈ tC4w.rows,
           (∀ f ∈ [featC4w],
             sqlEq (cellC tC4w.cols r "person_uuid") (f.person_uuid.map Val.str)
               = false) →
           r ∈ ([featC4w].foldl insertOrReplaceFF tC4w).rows)
       ∧ (∀ r ∈ ([featC4w].foldl insertOrReplaceFF tC4w).rows,
           r ∈ tC4w.rows ∨ ∃ f ∈ [featC4w], r = featureCells tC4w.cols f)) :=
  ⟨by decide, by decide,
   C4_ff_upsert stC4w [featC4w] tC4w (by decide) (by decide)⟩

/-- C3: against a store with organizations and people tables but no jobs
table, load_all_data raises while loading jobs (KeyError building the jobs
upsert against a table with no columns), yet the organization and person
rows written by the earlier load_data calls remain committed: the outer
transaction does not roll them back, refuting the atomicity claim. -/
theorem C3_partial_commit :
    runC3.2.isSome = true
    ∧ ((tabLookup stC3 "organizations").getD ⟨[], []⟩).rows = []
    ∧ ((tabLookup runC3.1 "organizations").getD ⟨[], []⟩).rows
        = [[some (.str "o1"), some (.str "Acme")]]
    ∧ ((tabLookup runC3.1 "people").getD ⟨[], []⟩).rows
        = [[some (.str "p1")]] := by decide

/-- C9: when the probe acknowledges anything but Authenticated: True (or
the request itself fails), ApiClient construction raises, the
orchestrator catches it into an absent client, every enrichment mapping
of the extraction is empty, and the pipeline's data path runs to the same
completion as the file-only pipeline that never consults the enrichment
service. -/
theorem C9_auth_failure_file_only (probe : ProbeResult)
    (fetchOrg : String → Option Rec) (fetchPerson : String → Option PersonPayload)
    (incremental : Bool)
    (storedOrgs storedPeople storedJobs : List (String × Option Int))
    (orgsCsv peopleCsv jobsCsv : DF) (ts : Int)
    (insOk : List (String × Option Val) → Bool) (st : DBState) (batchSize : Nat)
    (hb : probeAuthed probe = false) :
    verify_auth probe = .error "API authentication failed"
    ∧ initApiClient probe = none
    ∧ (extract_all_data (initApiClient probe) fetchOrg fetchPerson incremental
        storedOrgs storedPeople storedJobs orgsCsv peopleCsv jobsCsv).orgs.2 = []
    ∧ (extract_all_data (initApiClient probe) fetchOrg fetchPerson incremental
        storedOrgs storedPeople storedJobs orgsCsv peopleCsv jobsCsv).people.2 = []
    ∧ (extract_all_data (initApiClient probe) fetchOrg fetchPerson incremental
        storedOrgs storedPeople storedJobs orgsCsv peopleCsv
        jobsCsv).api_job_history = []
    ∧ run_pipeline probe fetchOrg fetchPerson incremental storedOrgs storedPeople
        storedJobs orgsCsv peopleCsv jobsCsv ts insOk st batchSize
      = run_pipeline_file_only incremental storedOrgs storedPeople storedJobs
          orgsCsv peopleCsv jobsCsv ts insOk st batchSize := by
  have h1 : verify_auth probe = .error "API authentication failed" := by
    cases probe with
    | requestError => rfl
    | ok body =>
      have hne : dictGet body "Authenticated" ≠ some (.vbool true) :=
        beq_eq_false_iff_ne.mp hb
      show (if dictGet body "Authenticated" = some (.vbool true) then
          Except.ok () else .error "API authentication failed") = _
      rw [if_neg hne]
  have h2 : initApiClient probe = none := by
    unfold initApiClient
    rw [h1]
  refine ⟨h1, h2, ?_, ?_, ?_, ?_⟩
  · rw [h2]
    rfl
  · rw [h2]
    rfl
  · rw [h2]
    rfl
  · unfold run_pipeline run_pipeline_file_only
    rw [h2]
    rfl

theorem C9_auth_failure_file_only_witness :
    probeAuthed probeC9w = false
    ∧ (verify_auth probeC9w = .error "API authentication failed"
       ∧ initApiClient probeC9w = none
       ∧ (extract_all_data (initApiClient probeC9w) (fun _ => none) (fun _ => none)
           false [] [] [] csvC9w csvC9w csvC9w).orgs.2 = []
       ∧ (extract_all_data (initApiClient probeC9w) (fun _ => none) (fun _ => none)
           false [] [] [] csvC9w csvC9w csvC9w).people.2 = []
       ∧ (extract_all_data (initApiClient probeC9w) (fun _ => none) (fun _ => none)
           false [] [] [] csvC9w csvC9w csvC9w).api_job_history = []
       ∧ run_pipeline probeC9w (fun _ => none) (fun _ => none) false [] [] []
           csvC9w csvC9w csvC9w 0 (fun _ => true) stC9w 1000
         = run_pipeline_file_only false [] [] [] csvC9w csvC9w csvC9w 0
             (fun _ => true) stC9w 1000) :=
  ⟨by decide,
   C9_auth_failure_file_only probeC9w (fun _ => none) (fun _ => none) false [] [] []
     csvC9w csvC9w csvC9w 0 (fun _ => true) stC9w 1000 (by decide)⟩

end ETL

